import Mathlib

/-!
# Sensores.cpp: sampling, filtering and the serial command protocol

A shallow embedding of `src/BackEnd/Sensores.cpp`.

* Bytes (`char`, `unsigned char`) are natural numbers; a C string is the list of
  its bytes up to the first NUL.
* `float`/`double` quantities are rationals: arithmetic is taken as exact.
* Each interrupt handler is a function from the values it reads from the
  peripherals and the global state to the new global state and the list of
  messages it hands to `UART_Send_String`.
* The scratch globals `d` and `text` are overwritten before they are read in
  every handler, so they are not part of the state: `d` is the handler's
  argument and `text` is the emitted message.
-/

namespace Sensores

/-- Bytes of a string literal. -/
def bytes (s : String) : List Nat := s.toList.map Char.toNat

/-- The constant `MAX_SAMPLES`. -/
def MAX_SAMPLES : Nat := 50

/-- Largest value of a C `int` on the 32-bit target. -/
def INT_MAX : Int := 2147483647

/-- Smallest value of a C `int` on the 32-bit target. -/
def INT_MIN : Int := -2147483648

/-- What `UART_Send_String` is called with: an acknowledgement text, or a
telemetry line `"TEMP:%.2f\r\n"` / `"PESO:%.2f\r\n"` carrying the value that is
formatted into it. -/
inductive Out where
  | text (s : List Nat)
  | temp (v : ℚ)
  | peso (v : ℚ)
  deriving DecidableEq

/-- The global variables of the program. -/
structure State where
  flag : Nat
  cmd_buffer : List Nat
  cmd_index : Nat
  digital1 : Nat
  voltaje1 : ℚ
  gradospt100 : ℚ
  digital2 : Nat
  voltaje2 : ℚ
  pesog : ℚ
  tiempo1 : Nat
  tiempo2 : Nat
  time_unit : Nat
  temp_buffer : List ℚ
  peso_buffer : List ℚ
  temp_index : Nat
  peso_index : Nat
  temp_samples : Nat
  peso_samples : Nat
  filtro_temp : Nat
  filtro_peso : Nat
  deriving DecidableEq

/-- The globals as initialised, with both filter buffers zeroed by the first
loop of `main`. -/
def boot : State where
  flag := 0
  cmd_buffer := List.replicate 32 0
  cmd_index := 0
  digital1 := 0
  voltaje1 := 0
  gradospt100 := 0
  digital2 := 0
  voltaje2 := 0
  pesog := 0
  tiempo1 := 1
  tiempo2 := 1
  time_unit := 's'.toNat
  temp_buffer := List.replicate MAX_SAMPLES 0
  peso_buffer := List.replicate MAX_SAMPLES 0
  temp_index := 0
  peso_index := 0
  temp_samples := 10
  peso_samples := 10
  filtro_temp := 0
  filtro_peso := 0

/-- `calcularPromedio`: the sum of `buffer[0 .. num_samples)` over `num_samples`. -/
def calcularPromedio (buffer : List ℚ) (num_samples : Nat) : ℚ :=
  (List.range num_samples).foldl (fun sum i => sum + buffer.getD i 0) 0 / num_samples

/-- The C string stored at the start of a byte array: the bytes before the
first NUL. -/
def cstr (p : List Nat) : List Nat := p.takeWhile (fun c => c != 0)

/-- One call of `strtok` on the string `s` with delimiter set `delims`: skip
leading delimiters; with nothing left the result is `NULL` (`none`), else the
token runs to the next delimiter, and the saved position is just past it. -/
def strtok (s delims : List Nat) : Option (List Nat × List Nat) :=
  match s.dropWhile (fun c => delims.contains c) with
  | [] => none
  | c :: r =>
    some ((c :: r).takeWhile (fun x => !delims.contains x),
          ((c :: r).dropWhile (fun x => !delims.contains x)).drop 1)

/-- C `isspace` in the "C" locale. -/
def isspace (c : Nat) : Bool := c == 32 || (9 ≤ c && c ≤ 13)

/-- C `isdigit`. -/
def isdigit (c : Nat) : Bool := '0'.toNat ≤ c && c ≤ '9'.toNat

/-- Digit loop of `atoi`: accumulate decimal digits until the first byte that
is not one. -/
def atoiDigits (acc : Nat) : List Nat → Nat
  | [] => acc
  | c :: cs => if isdigit c then atoiDigits (acc * 10 + (c - '0'.toNat)) cs else acc

/-- The `int` made of the `long` that `strtol` returns, for a 64-bit `long`:
`strtol` clamps to the `long` range and the conversion to `int` keeps the low
32 bits as a two's complement number. On the `int` range it is the identity. -/
def int_of_long (v : Int) : Int :=
  (max (-9223372036854775808) (min 9223372036854775807 v) + 2147483648) % 4294967296
    - 2147483648

/-- The C library's `atoi`: skip white space, read an optional sign, then
decimal digits. For a value that fits an `int` the result is that value. C
leaves every other case undefined; there the model takes what the usual
`(int) strtol (s, NULL, 10)` gives with a 64-bit `long`, and only statements
about values outside the `int` range depend on it. -/
def atoi (s : List Nat) : Int :=
  match s.dropWhile isspace with
  | [] => 0
  | c :: r =>
    if c = '-'.toNat then int_of_long (-(atoiDigits 0 r : Int))
    else if c = '+'.toNat then int_of_long (atoiDigits 0 r)
    else int_of_long (atoiDigits 0 (c :: r))

/-- `procesar_comando`: `cmd` is the memory the argument points to. `strcpy`
copies its C string into `temp`; `tipo` and `valor` are the two `strtok`
tokens, and `valor[0]` is the first byte of the (non-empty) token `valor`. The
stores of a positive `val` into the unsigned globals keep its value. -/
def procesar_comando (cmd : List Nat) (s : State) : State × List Out :=
  let temp := cstr cmd
  match strtok temp (bytes ":") with
  | none => (s, [])
  | some (tipo, rest) =>
    match strtok rest (bytes "\r\n") with
    | none => (s, [])
    | some (valor, _) =>
      let val := atoi valor
      let s1 : State :=
        if tipo = bytes "T1" then
          if val > 0 then { s with tiempo1 := val.toNat } else s
        else if tipo = bytes "T2" then
          if val > 0 then { s with tiempo2 := val.toNat } else s
        else if tipo = bytes "TU" then
          if valor.headD 0 = 'm'.toNat ∨ valor.headD 0 = 's'.toNat ∨ valor.headD 0 = 'M'.toNat then
            { s with time_unit := valor.headD 0 }
          else s
        else if tipo = bytes "FT" then
          { s with filtro_temp := if val = 0 then 0 else 1 }
        else if tipo = bytes "FP" then
          { s with filtro_peso := if val = 0 then 0 else 1 }
        else if tipo = bytes "ST" then
          if val > 0 ∧ val ≤ MAX_SAMPLES then { s with temp_samples := val.toNat } else s
        else if tipo = bytes "SP" then
          if val > 0 ∧ val ≤ MAX_SAMPLES then { s with peso_samples := val.toNat } else s
        else s
      (s1, [Out.text (bytes "OK:" ++ tipo ++ bytes ":" ++ valor ++ bytes "\r\n")])

/-- `EXTI15_10_IRQHandler`: `pc13` is bit 13 of `GPIOC->IDR`. The periods are
`uint32_t`, so the increments wrap. -/
def EXTI15_10_IRQHandler (pc13 : Bool) (s : State) : State × List Out :=
  if pc13 then
    ({ s with flag := 0,
              tiempo1 := (s.tiempo1 + 1) % 2 ^ 32,
              tiempo2 := (s.tiempo2 + 1) % 2 ^ 32 }, [])
  else (s, [])

/-- Physical value of the temperature channel for a raw code:
`30.305f * (digital1 * (3.3f / 4095.0f))`. -/
def gradosDe (digital1 : Nat) : ℚ := 30305 / 1000 * ((digital1 : ℚ) * (33 / 10 / 4095))

/-- Physical value of the weight channel for a raw code:
`(digital2 * (3.3f / 4095.0f)) * 303.03f`. -/
def pesoDe (digital2 : Nat) : ℚ := ((digital2 : ℚ) * (33 / 10 / 4095)) * (30303 / 100)

/-- `TIM2_IRQHandler`: `dr` is the value read from `ADC2->DR`, of which the
`uint16_t` `digital1` keeps the low 16 bits. -/
def TIM2_IRQHandler (dr : Nat) (s : State) : State × List Out :=
  let digital1 : Nat := dr % 2 ^ 16
  let voltaje1 : ℚ := (digital1 : ℚ) * (33 / 10 / 4095)
  let gradospt100 : ℚ := 30305 / 1000 * voltaje1
  let s1 : State := { s with digital1 := digital1, voltaje1 := voltaje1, gradospt100 := gradospt100 }
  let s2 : State :=
    if s1.filtro_temp ≠ 0 then
      let temp_buffer := s1.temp_buffer.set s1.temp_index gradospt100
      { s1 with temp_buffer := temp_buffer,
                temp_index := (s1.temp_index + 1) % s1.temp_samples,
                gradospt100 := calcularPromedio temp_buffer s1.temp_samples }
    else s1
  (s2, [Out.temp s2.gradospt100])

/-- `TIM5_IRQHandler`: `dr` is the value read from `ADC1->DR`, of which the
`uint16_t` `digital2` keeps the low 16 bits. -/
def TIM5_IRQHandler (dr : Nat) (s : State) : State × List Out :=
  let digital2 : Nat := dr % 2 ^ 16
  let voltaje2 : ℚ := (digital2 : ℚ) * (33 / 10 / 4095)
  let pesog : ℚ := voltaje2 * (30303 / 100)
  let s1 : State := { s with digital2 := digital2, voltaje2 := voltaje2, pesog := pesog }
  let s2 : State :=
    if s1.filtro_peso ≠ 0 then
      let peso_buffer := s1.peso_buffer.set s1.peso_index pesog
      { s1 with peso_buffer := peso_buffer,
                peso_index := (s1.peso_index + 1) % s1.peso_samples,
                pesog := calcularPromedio peso_buffer s1.peso_samples }
    else s1
  (s2, [Out.peso s2.pesog])

/-- `USART3_IRQHandler`: `rxne` is bit 5 of `USART3->ISR` and `d` the byte
read from `USART3->RDR`. -/
def USART3_IRQHandler (rxne : Bool) (d : Nat) (s : State) : State × List Out :=
  if rxne then
    if d = 'a'.toNat then ({ s with flag := 1 }, [])
    else if d = 'b'.toNat then ({ s with flag := 0 }, [])
    else if d = '\n'.toNat ∨ d = '\r'.toNat then
      if s.cmd_index > 0 then
        let s1 : State := { s with cmd_buffer := s.cmd_buffer.set s.cmd_index 0 }
        let r := procesar_comando s1.cmd_buffer s1
        ({ r.1 with cmd_index := 0 }, r.2)
      else (s, [])
    else
      if s.cmd_index < 32 - 1 then
        ({ s with cmd_buffer := s.cmd_buffer.set s.cmd_index d,
                  cmd_index := s.cmd_index + 1 }, [])
      else (s, [])
  else (s, [])

/-- Reload value the main loop computes for a channel from its period and the
time unit; both are `uint32_t`, so the product wraps. -/
def arr_value (tiempo time_unit : Nat) : Nat :=
  let factor : Nat :=
    if time_unit = 'm'.toNat then 1
    else if time_unit = 's'.toNat then 1000
    else if time_unit = 'M'.toNat then 60000
    else 1
  let arr := (tiempo * factor) % 2 ^ 32
  if arr < 1 then 1 else arr

/-- The events that drive the program once the main loop runs. -/
inductive Event where
  | usart (rxne : Bool) (d : Nat)
  | tim2 (dr : Nat)
  | tim5 (dr : Nat)
  | exti (pc13 : Bool)

/-- One interrupt. -/
def step (s : State) : Event → State × List Out
  | .usart rxne d => USART3_IRQHandler rxne d s
  | .tim2 dr => TIM2_IRQHandler dr s
  | .tim5 dr => TIM5_IRQHandler dr s
  | .exti pc13 => EXTI15_10_IRQHandler pc13 s

/-- A sequence of interrupts, with everything sent on the serial line. -/
def run (s : State) : List Event → State × List Out
  | [] => (s, [])
  | e :: es =>
    let r := step s e
    let r2 := run r.1 es
    (r2.1, r.2 ++ r2.2)

/-- States the program can be in when an interrupt arrives. -/
def Reachable (s : State) : Prop := ∃ es, (run boot es).1 = s

/-- Bounds that keep the filter code inside its 50-element buffers: both
write indices below `MAX_SAMPLES` and both windows in `[1, MAX_SAMPLES]`. -/
def FilterBounds (s : State) : Prop :=
  s.temp_index < MAX_SAMPLES ∧ s.peso_index < MAX_SAMPLES ∧
  1 ≤ s.temp_samples ∧ s.temp_samples ≤ MAX_SAMPLES ∧
  1 ≤ s.peso_samples ∧ s.peso_samples ≤ MAX_SAMPLES

/-- Reception of the bytes `ds`, one interrupt each. -/
def receive (ds : List Nat) : List Event := ds.map (Event.usart true)

/-- Number of button interrupts of a sequence that find PC13 high. -/
def pulsaciones : List Event → Nat
  | [] => 0
  | Event.exti true :: es => pulsaciones es + 1
  | _ :: es => pulsaciones es

/-- A byte the receive handler stores in the command buffer: neither a
single-character command nor a terminator. -/
abbrev lineByte (d : Nat) : Prop :=
  d ≠ 'a'.toNat ∧ d ≠ 'b'.toNat ∧ d ≠ '\n'.toNat ∧ d ≠ '\r'.toNat

/-- Decimal digits of a natural number, most significant first. -/
def decNat (n : Nat) : List Nat :=
  if n < 10 then ['0'.toNat + n] else decNat (n / 10) ++ ['0'.toNat + n % 10]
termination_by n
decreasing_by omega

/-- Decimal text of an integer, as `%d` prints it. -/
def decimal (n : Int) : List Nat :=
  if n < 0 then '-'.toNat :: decNat n.natAbs else decNat n.natAbs

/-- The conversion `%.2f` of `sprintf`: the value rounded to hundredths, ties
to even, printed as integer part, point and two digits. -/
def formato2f (v : ℚ) : List Nat :=
  let q : ℚ := |v| * 100
  let f : Nat := (Int.floor q).toNat
  let n : Nat := if q - f > 1 / 2 ∨ (q - f = 1 / 2 ∧ f % 2 = 1) then f + 1 else f
  (if v < 0 then ['-'.toNat] else []) ++ decNat (n / 100)
    ++ ['.'.toNat, '0'.toNat + n / 10 % 10, '0'.toNat + n % 10]

/-- The text `sprintf (text, "TEMP:%.2f\r\n", gradospt100)` builds for the
report `Out.temp v`. -/
def lineaTemp (v : ℚ) : List Nat := bytes "TEMP:" ++ formato2f v ++ bytes "\r\n"

/-! ## Tokens and integer parsing -/

theorem takeWhile_stop (p : Nat → Bool) (l r : List Nat) (x : Nat)
    (hl : ∀ a ∈ l, p a = true) (hx : p x = false) :
    (l ++ x :: r).takeWhile p = l ∧ (l ++ x :: r).dropWhile p = x :: r := by
  induction l with
  | nil => simp [List.takeWhile, List.dropWhile, hx]
  | cons a l ih =>
    have ha : p a = true := hl a (by simp)
    have := ih (fun b hb => hl b (by simp [hb]))
    simp [List.takeWhile, List.dropWhile, ha, this]

theorem takeWhile_all (p : Nat → Bool) (l : List Nat) (hl : ∀ a ∈ l, p a = true) :
    l.takeWhile p = l ∧ l.dropWhile p = [] := by
  induction l with
  | nil => simp
  | cons a l ih =>
    have ha : p a = true := hl a (by simp)
    have := ih (fun b hb => hl b (by simp [hb]))
    simp [List.takeWhile, List.dropWhile, ha, this]

theorem cstr_eq_self (l : List Nat) (h : ∀ b ∈ l, b ≠ 0) : cstr l = l :=
  (takeWhile_all _ l (fun a ha => by simpa using h a ha)).1

theorem cstr_append_nul (l r : List Nat) (h : ∀ b ∈ l, b ≠ 0) : cstr (l ++ 0 :: r) = l :=
  (takeWhile_stop _ l r 0 (fun a ha => by simpa using h a ha) (by simp)).1

theorem strtok_head (s delims : List Nat) (hs : s ≠ [])
    (hd : ∀ c, s.head? = some c → delims.contains c = false) :
    strtok s delims =
      some (s.takeWhile (fun x => !delims.contains x),
            (s.dropWhile (fun x => !delims.contains x)).drop 1) := by
  obtain ⟨t, T', rfl⟩ := List.exists_cons_of_ne_nil hs
  have ht : delims.contains t = false := hd t rfl
  simp only [strtok, List.dropWhile, ht]

theorem strtok_colon (T V : List Nat) (hT : T ≠ []) (hc : ∀ b ∈ T, b ≠ ':'.toNat) :
    strtok (T ++ ':'.toNat :: V) (bytes ":") = some (T, V) := by
  obtain ⟨h1, h2⟩ := takeWhile_stop (fun x => !(bytes ":").contains x) T V ':'.toNat
    (fun a ha => by simpa [bytes] using hc a ha) (by simp [bytes])
  rw [strtok_head _ _ (by simp), h1, h2]
  · rfl
  · obtain ⟨t, T', rfl⟩ := List.exists_cons_of_ne_nil hT
    intro c hc'
    simp only [List.cons_append, List.head?_cons, Option.some.injEq] at hc'
    subst hc'
    simpa [bytes] using hc t (by simp)

theorem strtok_noColon (T : List Nat) (hT : T ≠ []) (hc : ∀ b ∈ T, b ≠ ':'.toNat) :
    strtok T (bytes ":") = some (T, []) := by
  obtain ⟨h1, h2⟩ := takeWhile_all (fun x => !(bytes ":").contains x) T
    (fun a ha => by simpa [bytes] using hc a ha)
  rw [strtok_head _ _ hT, h1, h2]
  · rfl
  · obtain ⟨t, T', rfl⟩ := List.exists_cons_of_ne_nil hT
    intro c hc'
    simp only [List.head?_cons, Option.some.injEq] at hc'
    subst hc'
    simpa [bytes] using hc t (by simp)

theorem strtok_nil (delims : List Nat) : strtok [] delims = none := by
  simp [strtok]

theorem strtok_crlf (V : List Nat) (hV : V ≠ [])
    (hc : ∀ b ∈ V, b ≠ '\r'.toNat ∧ b ≠ '\n'.toNat) :
    strtok V (bytes "\r\n") = some (V, []) := by
  obtain ⟨h1, h2⟩ := takeWhile_all (fun x => !(bytes "\r\n").contains x) V
    (fun a ha => by simpa [bytes] using hc a ha)
  rw [strtok_head _ _ hV, h1, h2]
  · rfl
  · obtain ⟨t, T', rfl⟩ := List.exists_cons_of_ne_nil hV
    intro c hc'
    simp only [List.head?_cons, Option.some.injEq] at hc'
    subst hc'
    simpa [bytes] using hc t (by simp)

/-- Outcome of `procesar_comando` on a line `T:V` whose two tokens are found. -/
theorem procesar_comando_tokens (T V : List Nat) (s : State)
    (hT : T ≠ []) (hT0 : ∀ b ∈ T, b ≠ 0) (hTc : ∀ b ∈ T, b ≠ ':'.toNat)
    (hV : V ≠ []) (hV0 : ∀ b ∈ V, b ≠ 0)
    (hVc : ∀ b ∈ V, b ≠ '\r'.toNat ∧ b ≠ '\n'.toNat) :
    (procesar_comando (T ++ ':'.toNat :: V) s).2 =
      [Out.text (bytes "OK:" ++ T ++ bytes ":" ++ V ++ bytes "\r\n")] := by
  have h0 : cstr (T ++ ':'.toNat :: V) = T ++ ':'.toNat :: V := by
    apply cstr_eq_self
    intro b hb
    simp only [List.mem_append, List.mem_cons] at hb
    rcases hb with hb | hb | hb
    · exact hT0 b hb
    · subst hb; decide
    · exact hV0 b hb
  simp only [procesar_comando, h0, strtok_colon T V hT hTc, strtok_crlf V hV hVc]


theorem isdigit_iff (c : Nat) : isdigit c = true ↔ 48 ≤ c ∧ c ≤ 57 := by
  simp [isdigit]

theorem atoiDigits_append (xs : List Nat) (acc d : Nat) (hxs : ∀ c ∈ xs, isdigit c = true)
    (hd : d < 10) :
    atoiDigits acc (xs ++ ['0'.toNat + d]) = atoiDigits acc xs * 10 + d := by
  induction xs generalizing acc with
  | nil =>
    have : isdigit (48 + d) = true := by rw [isdigit_iff]; omega
    simp [atoiDigits, this]
  | cons x xs ih =>
    have hx : isdigit x = true := hxs x (by simp)
    simp only [List.cons_append, atoiDigits, hx, if_true]
    exact ih _ (fun c hc => hxs c (by simp [hc]))

theorem decNat_isdigit (n : Nat) : ∀ c ∈ decNat n, isdigit c = true := by
  induction n using Nat.strong_induction_on with
  | _ n ih =>
    intro c hc
    rw [decNat] at hc
    split at hc
    · simp at hc
      subst hc
      rw [isdigit_iff]; omega
    · simp only [List.mem_append, List.mem_singleton] at hc
      rcases hc with hc | hc
      · exact ih (n / 10) (by omega) c hc
      · subst hc
        rw [isdigit_iff]; simp; omega

theorem decNat_ne_nil (n : Nat) : decNat n ≠ [] := by
  rw [decNat]
  split <;> simp

theorem atoiDigits_decNat (n : Nat) : atoiDigits 0 (decNat n) = n := by
  induction n using Nat.strong_induction_on with
  | _ n ih =>
    rw [decNat]
    split
    · have := atoiDigits_append [] 0 n (by simp) (by omega)
      simpa [atoiDigits] using this
    · rw [atoiDigits_append _ _ _ (decNat_isdigit _) (Nat.mod_lt _ (by omega)),
        ih (n / 10) (by omega)]
      omega

theorem atoi_decimal (n : Int) : atoi (decimal n) = int_of_long n := by
  unfold decimal
  split
  · next h =>
    have : (-(n.natAbs : Int)) = n := by omega
    simp [atoi, List.dropWhile, isspace]
    rw [atoiDigits_decNat, this]
  · next h =>
    have hn : ((n.natAbs : Nat) : Int) = n := by omega
    obtain ⟨c, r, hcr⟩ := List.exists_cons_of_ne_nil (decNat_ne_nil n.natAbs)
    have hc : isdigit c = true := decNat_isdigit n.natAbs c (by simp [hcr])
    rw [isdigit_iff] at hc
    have h1 : isspace c = false := by simp [isspace]; omega
    have h2 : c ≠ 45 := by omega
    have h3 : c ≠ 43 := by omega
    have := atoiDigits_decNat n.natAbs
    rw [hcr] at this ⊢
    simp [atoi, List.dropWhile, h1, h2, h3, this, hn]

theorem int_of_long_of_int (n : Int) (hlo : INT_MIN ≤ n) (hhi : n ≤ INT_MAX) :
    int_of_long n = n := by
  simp only [int_of_long, INT_MIN, INT_MAX] at *
  omega


theorem decimal_bytes (n : Int) : ∀ b ∈ decimal n, b = 45 ∨ (48 ≤ b ∧ b ≤ 57) := by
  intro b hb
  unfold decimal at hb
  split at hb
  · simp only [List.mem_cons] at hb
    rcases hb with hb | hb
    · left; simpa using hb
    · right; exact (isdigit_iff b).1 (decNat_isdigit _ b hb)
  · right; exact (isdigit_iff b).1 (decNat_isdigit _ b hb)

theorem decimal_ne_nil (n : Int) : decimal n ≠ [] := by
  unfold decimal
  split
  · simp
  · exact decNat_ne_nil _

/-- Tokens of a line `T:<n>` with a decimal value. -/
theorem tokens_decimal (T : List Nat) (hT : T ≠ []) (hT0 : ∀ b ∈ T, b ≠ 0)
    (hTc : ∀ b ∈ T, b ≠ ':'.toNat) (n : Int) :
    cstr (T ++ ':'.toNat :: decimal n) = T ++ ':'.toNat :: decimal n ∧
    strtok (T ++ ':'.toNat :: decimal n) (bytes ":") = some (T, decimal n) ∧
    strtok (decimal n) (bytes "\r\n") = some (decimal n, []) := by
  refine ⟨?_, strtok_colon T _ hT hTc, strtok_crlf _ (decimal_ne_nil n) ?_⟩
  · apply cstr_eq_self
    intro b hb
    simp only [List.mem_append, List.mem_cons] at hb
    rcases hb with hb | hb | hb
    · exact hT0 b hb
    · subst hb; decide
    · have := decimal_bytes n b hb; omega
  · intro b hb
    have := decimal_bytes n b hb
    simp; omega

theorem procesar_T1 (n : Int) (s : State) :
    procesar_comando (bytes "T1:" ++ decimal n) s =
      (if int_of_long n > 0 then { s with tiempo1 := (int_of_long n).toNat } else s,
       [Out.text (bytes "OK:T1:" ++ decimal n ++ bytes "\r\n")]) := by
  obtain ⟨h0, h1, h2⟩ := tokens_decimal (bytes "T1") (by decide) (by decide) (by decide) n
  have e : bytes "T1:" ++ decimal n = bytes "T1" ++ ':'.toNat :: decimal n := by simp [bytes]
  rw [e]
  simp only [procesar_comando, h0, h1, h2, atoi_decimal]
  simp [bytes]

/-! ## Reception of a line -/


theorem run_append (s : State) (es1 es2 : List Event) :
    run s (es1 ++ es2) = ((run (run s es1).1 es2).1, (run s es1).2 ++ (run (run s es1).1 es2).2) := by
  induction es1 generalizing s with
  | nil => simp [run]
  | cons e es ih => simp [run, ih, List.append_assoc]

theorem USART3_lineByte (d : Nat) (hd : lineByte d) (s : State) :
    USART3_IRQHandler true d s =
      (if s.cmd_index < 31 then
        { s with cmd_buffer := s.cmd_buffer.set s.cmd_index d, cmd_index := s.cmd_index + 1 }
       else s, []) := by
  obtain ⟨h1, h2, h3, h4⟩ := hd
  simp only [USART3_IRQHandler, if_true, h1, h2, h3, h4, or_self, if_false]
  split <;> rfl

/-- Reception of line bytes only touches the command buffer: the stored line
is the old one extended by the new bytes, cut at 31. -/
theorem run_receive (ds : List Nat) (hds : ∀ d ∈ ds, lineByte d) (s : State)
    (hlen : s.cmd_buffer.length = 32) (hi : s.cmd_index ≤ 31) :
    (run s (receive ds)).2 = [] ∧
    (run s (receive ds)).1 =
      { s with cmd_buffer := (run s (receive ds)).1.cmd_buffer,
               cmd_index := (run s (receive ds)).1.cmd_index } ∧
    (run s (receive ds)).1.cmd_buffer.length = 32 ∧
    (run s (receive ds)).1.cmd_index = min (s.cmd_index + ds.length) 31 ∧
    (run s (receive ds)).1.cmd_buffer.take (run s (receive ds)).1.cmd_index =
      (s.cmd_buffer.take s.cmd_index ++ ds).take 31 := by
  induction ds generalizing s with
  | nil =>
    refine ⟨rfl, rfl, hlen, ?_, ?_⟩
    · simp [run, receive]; omega
    · simp only [run, receive, List.map_nil, List.append_nil]
      rw [List.take_take]
      congr 1
      omega
  | cons d ds ih =>
    have hd := hds d (by simp)
    have hds' : ∀ x ∈ ds, lineByte x := fun x hx => hds x (by simp [hx])
    simp only [receive, List.map_cons, run, step, USART3_lineByte d hd s, List.nil_append]
    by_cases hlt : s.cmd_index < 31
    · simp only [hlt, if_true]
      obtain ⟨i1, i2, i3, i4, i5⟩ := ih hds'
        { s with cmd_buffer := s.cmd_buffer.set s.cmd_index d, cmd_index := s.cmd_index + 1 }
        (by simp [hlen]) (by simp; omega)
      simp only [receive] at i1 i2 i3 i4 i5
      refine ⟨i1, ?_, i3, ?_, ?_⟩
      · rw [i2]
      · rw [i4]; simp; omega
      · rw [i5]
        have : (s.cmd_buffer.set s.cmd_index d).take (s.cmd_index + 1)
            = s.cmd_buffer.take s.cmd_index ++ [d] := by
          rw [List.set_eq_take_append_cons_drop, if_pos (by omega)]
          rw [List.take_append_eq_append_take]
          simp [List.take_take, List.length_take]
          have : min s.cmd_index s.cmd_buffer.length = s.cmd_index := by omega
          simp [this]
        rw [this]
        simp
    · simp only [hlt, if_false]
      obtain ⟨i1, i2, i3, i4, i5⟩ := ih hds' s hlen hi
      simp only [receive] at i1 i2 i3 i4 i5
      refine ⟨i1, i2, i3, ?_, ?_⟩
      · rw [i4]; simp; omega
      · rw [i5]
        have h31 : s.cmd_index = 31 := by omega
        have hl : (s.cmd_buffer.take s.cmd_index).length = 31 := by simp [hlen, h31]
        rw [List.take_append_of_le_length (by omega), List.take_append_of_le_length (by omega)]

theorem cstr_append_nul_gen (l r : List Nat) : cstr (l ++ 0 :: r) = cstr l := by
  induction l with
  | nil => simp [cstr, List.takeWhile]
  | cons a l ih =>
    simp only [cstr] at ih ⊢
    by_cases ha : a = 0
    · simp [List.takeWhile, ha]
    · simp [List.takeWhile, ha, ih]

theorem take_set_self (l : List Nat) (n a : Nat) : (l.set n a).take n = l.take n := by
  rw [List.set_eq_take_append_cons_drop]
  split
  · next h =>
    rw [List.take_append_of_le_length (by simp; omega), List.take_take, Nat.min_self]
  · rfl

theorem procesar_comando_congr (c1 c2 : List Nat) (h : cstr c1 = cstr c2) (s : State) :
    procesar_comando c1 s = procesar_comando c2 s := by
  simp only [procesar_comando, h]

/-- A terminator with a stored line hands the buffer to `procesar_comando`
and clears the index. -/
theorem USART3_terminator (t : Nat) (ht : t = '\r'.toNat ∨ t = '\n'.toNat) (s : State)
    (hlen : s.cmd_buffer.length = 32) (h0 : 0 < s.cmd_index) (hi : s.cmd_index ≤ 31) :
    USART3_IRQHandler true t s =
      ({ (procesar_comando (s.cmd_buffer.take s.cmd_index)
            { s with cmd_buffer := s.cmd_buffer.set s.cmd_index 0 }).1 with cmd_index := 0 },
       (procesar_comando (s.cmd_buffer.take s.cmd_index)
            { s with cmd_buffer := s.cmd_buffer.set s.cmd_index 0 }).2) := by
  have hc : cstr (s.cmd_buffer.set s.cmd_index 0) = cstr (s.cmd_buffer.take s.cmd_index) := by
    rw [List.set_eq_take_append_cons_drop, if_pos (by omega), cstr_append_nul_gen]
  have ha : t ≠ 'a'.toNat := by rcases ht with h | h <;> subst h <;> decide
  have hb : t ≠ 'b'.toNat := by rcases ht with h | h <;> subst h <;> decide
  have ht' : t = '\n'.toNat ∨ t = '\r'.toNat := ht.symm
  simp only [USART3_IRQHandler, if_true, ha, hb, if_false, ht', gt_iff_lt, h0]
  rw [procesar_comando_congr _ _ hc]

/-- A whole line followed by a terminator, from an empty command buffer. -/
theorem run_line (L : List Nat) (hL : ∀ d ∈ L, lineByte d) (hne : L ≠ [])
    (t : Nat) (ht : t = '\r'.toNat ∨ t = '\n'.toNat)
    (s : State) (hlen : s.cmd_buffer.length = 32) (hidx : s.cmd_index = 0) :
    ∃ buf : List Nat, buf.length = 32 ∧ buf.take (min L.length 31) = L.take 31 ∧
      run s (receive (L ++ [t])) =
        ({ (procesar_comando (L.take 31) { s with cmd_buffer := buf, cmd_index := min L.length 31 }).1
              with cmd_index := 0 },
         (procesar_comando (L.take 31) { s with cmd_buffer := buf, cmd_index := min L.length 31 }).2) := by
  obtain ⟨i1, i2, i3, i4, i5⟩ := run_receive L hL s hlen (by omega)
  rw [hidx] at i4 i5
  simp only [Nat.zero_add, List.take_zero, List.nil_append] at i4 i5
  have hpos : 0 < (run s (receive L)).1.cmd_index := by
    rw [i4]
    have : 0 < L.length := List.length_pos.2 hne
    omega
  have hle : (run s (receive L)).1.cmd_index ≤ 31 := by rw [i4]; omega
  have hT := USART3_terminator t ht (run s (receive L)).1 i3 hpos hle
  refine ⟨(run s (receive L)).1.cmd_buffer.set (run s (receive L)).1.cmd_index 0, by simp [i3], ?_, ?_⟩
  · rw [← i4, take_set_self, i5]
  · have hsplit : receive (L ++ [t]) = receive L ++ [Event.usart true t] := by simp [receive]
    rw [hsplit, run_append]
    simp only [run, step, hT, i1, List.nil_append, List.append_nil]
    rw [i5]
    conv_lhs => rw [i2]
    simp only [i4]

/-! ## The claims -/

theorem decimal_lineByte (n : Int) : ∀ d ∈ decimal n, lineByte d := by
  intro d hd
  have := decimal_bytes n d hd
  simp only [lineByte]
  simp
  omega

/-- C1. Receiving `T1:<n>` and a terminator from an empty command buffer sets
`tiempo1` to `n` when `n > 0`, keeps it when `n ≤ 0`, and in both cases the
only thing sent is `OK:T1:<n>\r\n`; `n` ranges over the C `int` values whose
text fits the line buffer. -/
theorem C1_T1_sets_period (n : Int) (hlo : INT_MIN ≤ n) (hhi : n ≤ INT_MAX)
    (hfit : (bytes "T1:" ++ decimal n).length ≤ 31)
    (t : Nat) (ht : t = '\r'.toNat ∨ t = '\n'.toNat)
    (s : State) (hlen : s.cmd_buffer.length = 32) (hidx : s.cmd_index = 0) :
    (run s (receive (bytes "T1:" ++ decimal n ++ [t]))).1.tiempo1
        = (if 0 < n then n.toNat else s.tiempo1) ∧
    (run s (receive (bytes "T1:" ++ decimal n ++ [t]))).2
        = [Out.text (bytes "OK:T1:" ++ decimal n ++ bytes "\r\n")] := by
  have hL : ∀ d ∈ bytes "T1:" ++ decimal n, lineByte d := by
    intro d hd
    rw [List.mem_append] at hd
    rcases hd with hd | hd
    · revert d; decide
    · exact decimal_lineByte n d hd
  obtain ⟨buf, _, _, hrun⟩ := run_line _ hL (by simp [bytes]) t ht s hlen hidx
  rw [hrun, List.take_of_length_le hfit, procesar_T1, int_of_long_of_int n hlo hhi]
  constructor
  · split <;> rfl
  · rfl

theorem C1_T1_sets_period_witness :
    (run boot (receive (bytes "T1:" ++ decimal 25 ++ [13]))).1.tiempo1 = 25 ∧
    (run boot (receive (bytes "T1:" ++ decimal 25 ++ [13]))).2
        = [Out.text (bytes "OK:T1:" ++ decimal 25 ++ bytes "\r\n")] :=
  C1_T1_sets_period 25 (by decide) (by decide) (by simp [decimal, decNat, bytes]) 13
    (by decide) boot (by decide) (by decide)

/-- C3. A line `T:V` with non-empty type and value (`T` without `:`, the line
without NUL and `V` without line terminators, as every dispatched line is) is
acknowledged with exactly `OK:T:V\r\n`, whatever `T` and `V` are. -/
theorem C3_acknowledgement (T V : List Nat) (s : State)
    (hT : T ≠ []) (hT0 : ∀ b ∈ T, b ≠ 0) (hTc : ∀ b ∈ T, b ≠ ':'.toNat)
    (hV : V ≠ []) (hV0 : ∀ b ∈ V, b ≠ 0)
    (hVc : ∀ b ∈ V, b ≠ '\r'.toNat ∧ b ≠ '\n'.toNat) :
    (procesar_comando (T ++ ':'.toNat :: V) s).2 =
      [Out.text (bytes "OK:" ++ T ++ bytes ":" ++ V ++ bytes "\r\n")] :=
  procesar_comando_tokens T V s hT hT0 hTc hV hV0 hVc

theorem C3_acknowledgement_witness :
    (procesar_comando (bytes "ST:99") boot).2 = [Out.text (bytes "OK:ST:99\r\n")] ∧
    (procesar_comando (bytes "ST:99") boot).1 = boot :=
  ⟨C3_acknowledgement (bytes "ST") (bytes "99") boot (by decide) (by decide) (by decide)
    (by decide) (by decide) (by decide), by decide⟩

theorem cstr_forall (L : List Nat) (p : Nat → Prop) (h : ∀ b ∈ L, p b) : ∀ b ∈ cstr L, p b :=
  fun b hb => h b (List.takeWhile_subset _ hb)

theorem cstr_idem (L : List Nat) : cstr (cstr L) = cstr L :=
  cstr_eq_self _ (fun b hb => by
    have := List.mem_takeWhile_imp hb
    simpa using this)

theorem cstr_append_of_mem (l r : List Nat) (h : 0 ∈ l) : cstr (l ++ r) = cstr l := by
  induction l with
  | nil => simp at h
  | cons a l ih =>
    by_cases ha : a = 0
    · simp [cstr, List.takeWhile, ha]
    · have hl : 0 ∈ l := by
        rcases List.mem_cons.1 h with h | h
        · exact absurd h.symm ha
        · exact h
      have := ih hl
      simp only [cstr] at this ⊢
      simp [List.takeWhile, ha, this]

theorem discard_noColon (L : List Nat) (h : ∀ b ∈ L, b ≠ ':'.toNat) (s : State) :
    procesar_comando L s = (s, []) := by
  have hc := cstr_forall L _ h
  by_cases hn : cstr L = []
  · simp [procesar_comando, hn, strtok_nil]
  · simp [procesar_comando, strtok_noColon _ hn hc, strtok_nil]

theorem discard_noValue (T : List Nat) (h : ∀ b ∈ T, b ≠ ':'.toNat) (s : State) :
    procesar_comando (T ++ [':'.toNat]) s = (s, []) := by
  by_cases h0 : 0 ∈ T
  · rw [procesar_comando_congr _ T (cstr_append_of_mem T _ h0)]
    exact discard_noColon T h s
  · have hz : ∀ b ∈ T, b ≠ 0 := fun b hb hb0 => h0 (hb0 ▸ hb)
    have hcs : cstr (T ++ [':'.toNat]) = T ++ [':'.toNat] := by
      apply cstr_eq_self
      intro b hb
      simp only [List.mem_append, List.mem_singleton] at hb
      rcases hb with hb | hb
      · exact hz b hb
      · subst hb; decide
    by_cases hn : T = []
    · subst hn
      simp [procesar_comando, cstr, strtok, bytes, List.takeWhile, List.dropWhile]
    · simp only [procesar_comando, hcs, strtok_colon T [] hn h, strtok_nil]

theorem skip_leading_colon (L : List Nat) (s : State) :
    procesar_comando (':'.toNat :: L) s = procesar_comando L s := by
  have h1 : cstr (':'.toNat :: L) = ':'.toNat :: cstr L := by
    simp [cstr, List.takeWhile]
  have h2 : strtok (':'.toNat :: cstr L) (bytes ":") = strtok (cstr L) (bytes ":") := by
    simp [strtok, bytes, List.dropWhile]
  simp only [procesar_comando, h1, h2]

/-- C4 (as the code has it). A line with no `:` and a line with nothing after
its first `:` are discarded: no state change, nothing sent. A leading `:` is
skipped by `strtok`, so `:L` is handled exactly as `L` is (discarded only when
`L` is). -/
theorem C4_discard (L : List Nat) (s : State) :
    ((∀ b ∈ L, b ≠ ':'.toNat) → procesar_comando L s = (s, [])) ∧
    ((∀ b ∈ L, b ≠ ':'.toNat) → procesar_comando (L ++ [':'.toNat]) s = (s, [])) ∧
    procesar_comando (':'.toNat :: L) s = procesar_comando L s :=
  ⟨fun h => discard_noColon L h s, fun h => discard_noValue L h s, skip_leading_colon L s⟩

theorem C4_discard_witness :
    procesar_comando (bytes "T1") boot = (boot, []) ∧
    procesar_comando (bytes "T1:") boot = (boot, []) ∧
    procesar_comando (bytes ":T1") boot = (boot, []) :=
  ⟨(C4_discard (bytes "T1") boot).1 (by decide),
   (C4_discard (bytes "T1") boot).2.1 (by decide),
   ((C4_discard (bytes "T1") boot).2.2).trans ((C4_discard (bytes "T1") boot).1 (by decide))⟩

/-- C4 fails as stated: the line `:T1:5` has nothing before its first `:`, yet
it sets `tiempo1` to 5 and is acknowledged as `T1:5`. -/
theorem C4_counterexample :
    (bytes ":T1:5").takeWhile (fun b => b != ':'.toNat) = [] ∧
    boot.tiempo1 = 1 ∧
    (procesar_comando (bytes ":T1:5") boot).1.tiempo1 = 5 ∧
    (procesar_comando (bytes ":T1:5") boot).2 = [Out.text (bytes "OK:T1:5\r\n")] := by
  decide

/-- C8. Dispatching `TU:x` sets `time_unit` to `x` when `x` is `m`, `s` or `M`
and changes nothing for any other byte `x`. -/
theorem C8_time_unit (x : Nat) (s : State) :
    (procesar_comando (bytes "TU:" ++ [x]) s).1 =
      if x = 'm'.toNat ∨ x = 's'.toNat ∨ x = 'M'.toNat then { s with time_unit := x } else s := by
  by_cases h0 : x = 0
  · subst h0
    simp [procesar_comando, cstr, strtok, bytes, List.takeWhile, List.dropWhile]
  by_cases h13 : x = 13
  · subst h13
    simp [procesar_comando, cstr, strtok, bytes, List.takeWhile, List.dropWhile]
  by_cases h10 : x = 10
  · subst h10
    simp [procesar_comando, cstr, strtok, bytes, List.takeWhile, List.dropWhile]
  have e : bytes "TU:" ++ [x] = bytes "TU" ++ ':'.toNat :: [x] := by simp [bytes]
  have hc : cstr (bytes "TU" ++ ':'.toNat :: [x]) = bytes "TU" ++ ':'.toNat :: [x] := by
    apply cstr_eq_self
    simp [bytes, h0]
  have h1 := strtok_colon (bytes "TU") [x] (by decide) (by decide)
  have h2 := strtok_crlf [x] (by simp) (by simp [h13, h10])
  rw [e]
  simp only [procesar_comando, hc, h1, h2]
  simp [bytes]

theorem procesar_ST (v : Int) (s : State) :
    procesar_comando (bytes "ST:" ++ decimal v) s =
      (if int_of_long v > 0 ∧ int_of_long v ≤ MAX_SAMPLES then
         { s with temp_samples := (int_of_long v).toNat } else s,
       [Out.text (bytes "OK:ST:" ++ decimal v ++ bytes "\r\n")]) := by
  obtain ⟨h0, h1, h2⟩ := tokens_decimal (bytes "ST") (by decide) (by decide) (by decide) v
  have e : bytes "ST:" ++ decimal v = bytes "ST" ++ ':'.toNat :: decimal v := by simp [bytes]
  rw [e]
  simp only [procesar_comando, h0, h1, h2, atoi_decimal]
  simp [bytes]

theorem procesar_FT (v : Int) (s : State) :
    procesar_comando (bytes "FT:" ++ decimal v) s =
      ({ s with filtro_temp := if int_of_long v = 0 then 0 else 1 },
       [Out.text (bytes "OK:FT:" ++ decimal v ++ bytes "\r\n")]) := by
  obtain ⟨h0, h1, h2⟩ := tokens_decimal (bytes "FT") (by decide) (by decide) (by decide) v
  have e : bytes "FT:" ++ decimal v = bytes "FT" ++ ':'.toNat :: decimal v := by simp [bytes]
  rw [e]
  simp only [procesar_comando, h0, h1, h2, atoi_decimal]
  simp [bytes]

theorem procesar_ST_state (v : Int) (hlo : INT_MIN ≤ v) (hhi : v ≤ INT_MAX) (s : State) :
    (procesar_comando (bytes "ST:" ++ decimal v) s).1 =
      (if 1 ≤ v ∧ v ≤ 50 then { s with temp_samples := v.toNat } else s) := by
  rw [procesar_ST, int_of_long_of_int v hlo hhi]
  by_cases h : 1 ≤ v ∧ v ≤ 50
  · rw [if_pos (by simp only [MAX_SAMPLES]; omega), if_pos h]
  · rw [if_neg (by simp only [MAX_SAMPLES]; omega), if_neg h]

theorem USART3_terminator_raw (t : Nat) (ht : t = '\r'.toNat ∨ t = '\n'.toNat) (s : State)
    (h0 : 0 < s.cmd_index) :
    USART3_IRQHandler true t s =
      ({ (procesar_comando (s.cmd_buffer.set s.cmd_index 0)
            { s with cmd_buffer := s.cmd_buffer.set s.cmd_index 0 }).1 with cmd_index := 0 },
       (procesar_comando (s.cmd_buffer.set s.cmd_index 0)
            { s with cmd_buffer := s.cmd_buffer.set s.cmd_index 0 }).2) := by
  have ha : t ≠ 'a'.toNat := by rcases ht with h | h <;> subst h <;> decide
  have hb : t ≠ 'b'.toNat := by rcases ht with h | h <;> subst h <;> decide
  have ht' : t = '\n'.toNat ∨ t = '\r'.toNat := ht.symm
  simp only [USART3_IRQHandler, if_true, ha, hb, if_false, ht', gt_iff_lt, h0]

/-- C7. After more than 31 line bytes from an empty command buffer the buffer
holds the first 31 of them, and the terminator hands `procesar_comando` exactly
those 31 bytes followed by the NUL the handler writes, so the dispatch is a
function of the first 31 bytes alone; when none of the bytes is NUL the C
string read there is those 31 bytes. -/
theorem C7_truncation (bs : List Nat) (hbs : ∀ d ∈ bs, lineByte d) (hlong : 31 < bs.length)
    (t : Nat) (ht : t = '\r'.toNat ∨ t = '\n'.toNat)
    (s : State) (hlen : s.cmd_buffer.length = 32) (hidx : s.cmd_index = 0) :
    (run s (receive bs)).1.cmd_index = 31 ∧
    (run s (receive bs)).1.cmd_buffer.take 31 = bs.take 31 ∧
    run s (receive (bs ++ [t])) =
      ({ (procesar_comando (bs.take 31 ++ [0])
            { s with cmd_buffer := bs.take 31 ++ [0], cmd_index := 31 }).1 with cmd_index := 0 },
       (procesar_comando (bs.take 31 ++ [0])
            { s with cmd_buffer := bs.take 31 ++ [0], cmd_index := 31 }).2) ∧
    ((∀ d ∈ bs, d ≠ 0) → cstr (bs.take 31 ++ [0]) = bs.take 31) := by
  obtain ⟨i1, i2, i3, i4, i5⟩ := run_receive bs hbs s hlen (by omega)
  rw [hidx] at i4 i5
  simp only [Nat.zero_add, List.take_zero, List.nil_append] at i4 i5
  have h31 : (run s (receive bs)).1.cmd_index = 31 := by rw [i4]; omega
  rw [h31] at i5
  have hset : (run s (receive bs)).1.cmd_buffer.set 31 0 = bs.take 31 ++ [0] := by
    rw [List.set_eq_take_append_cons_drop, if_pos (by omega), i5, List.drop_of_length_le (by omega)]
  refine ⟨h31, i5, ?_, fun hz => cstr_append_nul _ _ (fun b hb => hz b (List.mem_of_mem_take hb))⟩
  have hsplit : receive (bs ++ [t]) = receive bs ++ [Event.usart true t] := by simp [receive]
  rw [hsplit, run_append]
  simp only [run, step, USART3_terminator_raw t ht _ (by omega : 0 < (run s (receive bs)).1.cmd_index),
    i1, List.nil_append, List.append_nil, h31, hset]
  conv_lhs => rw [i2]

theorem C7_truncation_witness :
    run boot (receive (bytes "T1:5xxxxxxxxxxxxxxxxxxxxxxxxxxxZZZ" ++ [13])) =
      ({ (procesar_comando (bytes "T1:5xxxxxxxxxxxxxxxxxxxxxxxxxxx" ++ [0])
            { boot with cmd_buffer := bytes "T1:5xxxxxxxxxxxxxxxxxxxxxxxxxxx" ++ [0],
                        cmd_index := 31 }).1 with cmd_index := 0 },
       [Out.text (bytes "OK:T1:5xxxxxxxxxxxxxxxxxxxxxxxxxxx\r\n")]) := by
  have h := (C7_truncation (bytes "T1:5xxxxxxxxxxxxxxxxxxxxxxxxxxxZZZ") (by decide) (by decide) 13
    (by decide) boot (by decide) (by decide)).2.2.1
  rw [h]
  decide

theorem ite_lt_one (a : Nat) : (if a < 1 then 1 else a) = max 1 a := by
  split <;> omega

theorem arr_value_eq (p u f : Nat)
    (hf : (if u = 'm'.toNat then 1 else if u = 's'.toNat then 1000
            else if u = 'M'.toNat then 60000 else 1) = f) :
    arr_value p u = if p * f % 2 ^ 32 < 1 then 1 else p * f % 2 ^ 32 := by
  subst hf
  rfl

/-- C5 (as the code has it). The reload value is `max 1` of the product taken
modulo `2 ^ 32`, the width of the `uint32_t` it is computed in; it is
`max (1, p * unit_factor)` whenever that product is below `2 ^ 32`. -/
theorem C5_reload (p : Nat) :
    arr_value p 'm'.toNat = max 1 (p * 1 % 2 ^ 32) ∧
    arr_value p 's'.toNat = max 1 (p * 1000 % 2 ^ 32) ∧
    arr_value p 'M'.toNat = max 1 (p * 60000 % 2 ^ 32) ∧
    (p * 1 < 2 ^ 32 → arr_value p 'm'.toNat = max 1 (p * 1)) ∧
    (p * 1000 < 2 ^ 32 → arr_value p 's'.toNat = max 1 (p * 1000)) ∧
    (p * 60000 < 2 ^ 32 → arr_value p 'M'.toNat = max 1 (p * 60000)) := by
  have hm : arr_value p 'm'.toNat = max 1 (p * 1 % 2 ^ 32) := by
    exact (arr_value_eq p _ 1 (by decide)).trans (ite_lt_one _)
  have hs : arr_value p 's'.toNat = max 1 (p * 1000 % 2 ^ 32) := by
    exact (arr_value_eq p _ 1000 (by decide)).trans (ite_lt_one _)
  have hM : arr_value p 'M'.toNat = max 1 (p * 60000 % 2 ^ 32) := by
    exact (arr_value_eq p _ 60000 (by decide)).trans (ite_lt_one _)
  refine ⟨hm, hs, hM, ?_, ?_, ?_⟩
  · intro h; rw [hm, Nat.mod_eq_of_lt h]
  · intro h; rw [hs, Nat.mod_eq_of_lt h]
  · intro h; rw [hM, Nat.mod_eq_of_lt h]

theorem C5_reload_witness :
    arr_value 2 's'.toNat = 2000 ∧ arr_value 0 'M'.toNat = 1 ∧ arr_value 4294968 's'.toNat = 704 :=
  ⟨(C5_reload 2).2.2.2.2.1 (by decide), (C5_reload 0).2.2.2.2.2 (by decide), (C5_reload 4294968).2.1⟩

/-- C5 fails as stated: the period 4294968, which `T1:4294968` stores, with
unit `s` gives the reload value 704, not 4294968000. -/
theorem C5_counterexample :
    (procesar_comando (bytes "T1:4294968") boot).1.tiempo1 = 4294968 ∧
    arr_value 4294968 's'.toNat = 704 ∧
    arr_value 4294968 's'.toNat ≠ max 1 (4294968 * 1000) := by
  decide

/-- What `procesar_comando` can do to the filter windows and indices: the
indices stay, and a window either stays or becomes a value in `[1, 50]`. -/
theorem procesar_comando_filter (cmd : List Nat) (s : State) :
    (procesar_comando cmd s).1.temp_index = s.temp_index ∧
    (procesar_comando cmd s).1.peso_index = s.peso_index ∧
    ((procesar_comando cmd s).1.temp_samples = s.temp_samples ∨
      (1 ≤ (procesar_comando cmd s).1.temp_samples ∧
        (procesar_comando cmd s).1.temp_samples ≤ 50)) ∧
    ((procesar_comando cmd s).1.peso_samples = s.peso_samples ∨
      (1 ≤ (procesar_comando cmd s).1.peso_samples ∧
        (procesar_comando cmd s).1.peso_samples ≤ 50)) := by
  unfold procesar_comando
  simp only [MAX_SAMPLES]
  split
  · simp
  · split
    · simp
    · split_ifs <;> simp <;> omega

theorem USART3_filter (rxne : Bool) (d : Nat) (s : State) :
    (USART3_IRQHandler rxne d s).1.temp_index = s.temp_index ∧
    (USART3_IRQHandler rxne d s).1.peso_index = s.peso_index ∧
    ((USART3_IRQHandler rxne d s).1.temp_samples = s.temp_samples ∨
      (1 ≤ (USART3_IRQHandler rxne d s).1.temp_samples ∧
        (USART3_IRQHandler rxne d s).1.temp_samples ≤ 50)) ∧
    ((USART3_IRQHandler rxne d s).1.peso_samples = s.peso_samples ∨
      (1 ≤ (USART3_IRQHandler rxne d s).1.peso_samples ∧
        (USART3_IRQHandler rxne d s).1.peso_samples ≤ 50)) := by
  unfold USART3_IRQHandler
  split_ifs
  · simp
  · simp
  · exact procesar_comando_filter _ _
  · simp
  · simp
  · simp
  · simp

theorem step_filterBounds (s : State) (e : Event) (h : FilterBounds s) :
    FilterBounds (step s e).1 := by
  obtain ⟨h1, h2, h3, h4, h5, h6⟩ := h
  simp only [MAX_SAMPLES] at h1 h2 h4 h6
  cases e with
  | usart rxne d =>
    obtain ⟨u1, u2, u3, u4⟩ := USART3_filter rxne d s
    simp only [FilterBounds, step, MAX_SAMPLES, u1, u2]
    omega
  | tim2 dr =>
    simp only [FilterBounds, step, TIM2_IRQHandler, MAX_SAMPLES]
    split_ifs
    · have := Nat.mod_lt (s.temp_index + 1) (by omega : s.temp_samples > 0)
      simp only
      omega
    · simp only
      omega
  | tim5 dr =>
    simp only [FilterBounds, step, TIM5_IRQHandler, MAX_SAMPLES]
    split_ifs
    · have := Nat.mod_lt (s.peso_index + 1) (by omega : s.peso_samples > 0)
      simp only
      omega
    · simp only
      omega
  | exti pc13 =>
    simp only [FilterBounds, step, EXTI15_10_IRQHandler, MAX_SAMPLES]
    split_ifs <;> simp only <;> omega

theorem run_filterBounds (es : List Event) (s : State) (h : FilterBounds s) :
    FilterBounds (run s es).1 := by
  induction es generalizing s with
  | nil => exact h
  | cons e es ih => exact ih _ (step_filterBounds s e h)

theorem reachable_filterBounds (s : State) (hs : Reachable s) : FilterBounds s := by
  obtain ⟨es, rfl⟩ := hs
  exact run_filterBounds es boot (by unfold FilterBounds; decide)

/-- C6 (as the code has it). In every reachable state both write indices are
below `MAX_SAMPLES`; a filtered sampling event leaves its channel's index
strictly below the window; any event that keeps a channel's window keeps
`index < window` for it; and a dispatched command never moves an index, so it
does not reduce the index when it changes the window. -/
theorem C6_index_bound (s : State) (hs : Reachable s) :
    (s.temp_index < MAX_SAMPLES ∧ s.peso_index < MAX_SAMPLES) ∧
    (∀ dr, s.filtro_temp ≠ 0 →
      (TIM2_IRQHandler dr s).1.temp_index < (TIM2_IRQHandler dr s).1.temp_samples) ∧
    (∀ dr, s.filtro_peso ≠ 0 →
      (TIM5_IRQHandler dr s).1.peso_index < (TIM5_IRQHandler dr s).1.peso_samples) ∧
    (∀ e, s.temp_index < s.temp_samples → (step s e).1.temp_samples = s.temp_samples →
      (step s e).1.temp_index < (step s e).1.temp_samples) ∧
    (∀ e, s.peso_index < s.peso_samples → (step s e).1.peso_samples = s.peso_samples →
      (step s e).1.peso_index < (step s e).1.peso_samples) ∧
    (∀ cmd, (procesar_comando cmd s).1.temp_index = s.temp_index ∧
      (procesar_comando cmd s).1.peso_index = s.peso_index) := by
  obtain ⟨h1, h2, h3, h4, h5, h6⟩ := reachable_filterBounds s hs
  refine ⟨⟨h1, h2⟩, ?_, ?_, ?_, ?_, ?_⟩
  · intro dr hf
    simp only [TIM2_IRQHandler, hf, ne_eq, not_false_eq_true, if_true]
    exact Nat.mod_lt _ (by omega)
  · intro dr hf
    simp only [TIM5_IRQHandler, hf, ne_eq, not_false_eq_true, if_true]
    exact Nat.mod_lt _ (by omega)
  · intro e hlt hw
    cases e with
    | usart rxne d =>
      rw [hw]
      simp only [step, (USART3_filter rxne d s).1]
      exact hlt
    | tim2 dr =>
      simp only [step, TIM2_IRQHandler]
      split_ifs
      · exact Nat.mod_lt _ (by omega)
      · exact hlt
    | tim5 dr =>
      simp only [step, TIM5_IRQHandler]
      split_ifs <;> exact hlt
    | exti pc13 =>
      simp only [step, EXTI15_10_IRQHandler]
      split_ifs <;> exact hlt
  · intro e hlt hw
    cases e with
    | usart rxne d =>
      rw [hw]
      simp only [step, (USART3_filter rxne d s).2.1]
      exact hlt
    | tim2 dr =>
      simp only [step, TIM2_IRQHandler]
      split_ifs <;> exact hlt
    | tim5 dr =>
      simp only [step, TIM5_IRQHandler]
      split_ifs
      · exact Nat.mod_lt _ (by omega)
      · exact hlt
    | exti pc13 =>
      simp only [step, EXTI15_10_IRQHandler]
      split_ifs <;> exact hlt
  · intro cmd
    exact ⟨(procesar_comando_filter cmd s).1, (procesar_comando_filter cmd s).2.1⟩

theorem C6_index_bound_witness :
    (boot.temp_index < MAX_SAMPLES ∧ boot.peso_index < MAX_SAMPLES) ∧
    (step boot (Event.tim2 7)).1.temp_index < (step boot (Event.tim2 7)).1.temp_samples :=
  ⟨(C6_index_bound boot ⟨[], rfl⟩).1,
   (C6_index_bound boot ⟨[], rfl⟩).2.2.2.1 (Event.tim2 7) (by decide) (by decide)⟩

/-- C6 fails as stated: with the filter on, one temperature sample moves the
index to 1, and `ST:1` then sets the window to 1 without touching the index. -/
theorem C6_counterexample :
    Reachable (run boot (receive (bytes "FT:1\r") ++ [Event.tim2 0]
        ++ receive (bytes "ST:1\r"))).1 ∧
    (run boot (receive (bytes "FT:1\r") ++ [Event.tim2 0]
        ++ receive (bytes "ST:1\r"))).1.temp_index = 1 ∧
    (run boot (receive (bytes "FT:1\r") ++ [Event.tim2 0]
        ++ receive (bytes "ST:1\r"))).1.temp_samples = 1 :=
  ⟨⟨_, rfl⟩, by decide, by decide⟩

theorem foldl_add_eq_sum (f : Nat → ℚ) (n : Nat) :
    (List.range n).foldl (fun sum i => sum + f i) 0 = ∑ i in Finset.range n, f i := by
  induction n with
  | zero => simp
  | succ n ih => rw [List.range_succ, List.foldl_append, ih, Finset.sum_range_succ]; rfl

theorem calcularPromedio_eq (buffer : List ℚ) (w : Nat) :
    calcularPromedio buffer w = (∑ i in Finset.range w, buffer.getD i 0) / w := by
  rw [calcularPromedio, foldl_add_eq_sum]

theorem sum_range_shift (g : Nat → ℚ) (w k : Nat) :
    ∑ i in Finset.range w, g ((k + i) % w) = ∑ j in Finset.range w, g j := by
  induction k with
  | zero =>
    apply Finset.sum_congr rfl
    intro i hi
    rw [Nat.zero_add, Nat.mod_eq_of_lt (Finset.mem_range.1 hi)]
  | succ k ih =>
    rw [← ih]
    have h1 := Finset.sum_range_succ (fun i => g ((k + i) % w)) w
    have h2 := Finset.sum_range_succ' (fun i => g ((k + i) % w)) w
    simp only [Nat.add_zero, Nat.add_mod_right] at h1 h2
    have h3 : ∑ i in Finset.range w, g ((k + 1 + i) % w)
        = ∑ i in Finset.range w, g ((k + (i + 1)) % w) := by
      apply Finset.sum_congr rfl
      intro i _
      congr 2
      omega
    rw [h3]
    linarith

theorem map_sum_eq_sum_range (f : Nat → ℚ) (l : List Nat) :
    (l.map f).sum = ∑ i in Finset.range l.length, f (l.getD i 0) := by
  induction l with
  | nil => simp
  | cons a l ih =>
    rw [List.map_cons, List.sum_cons, List.length_cons, Finset.sum_range_succ', ih]
    simp [add_comm]

theorem mod_ne_of_lt (w m n : Nat) (h1 : m < n) (h2 : n < m + w) : m % w ≠ n % w := by
  intro h
  have hz := Nat.sub_mod_eq_zero_of_mod_eq h.symm
  have hd : w ∣ n - m := Nat.dvd_of_mod_eq_zero hz
  have := Nat.le_of_dvd (by omega) hd
  omega

theorem TIM2_filtered (dr : Nat) (s : State) (hf : s.filtro_temp ≠ 0) :
    TIM2_IRQHandler dr s =
      ({ s with digital1 := dr % 2 ^ 16,
                voltaje1 := ((dr % 2 ^ 16 : Nat) : ℚ) * (33 / 10 / 4095),
                temp_buffer := s.temp_buffer.set s.temp_index (gradosDe (dr % 2 ^ 16)),
                temp_index := (s.temp_index + 1) % s.temp_samples,
                gradospt100 := calcularPromedio
                  (s.temp_buffer.set s.temp_index (gradosDe (dr % 2 ^ 16))) s.temp_samples },
       [Out.temp (calcularPromedio
          (s.temp_buffer.set s.temp_index (gradosDe (dr % 2 ^ 16))) s.temp_samples)]) := by
  simp only [TIM2_IRQHandler, hf, ne_eq, not_false_eq_true, if_true, gradosDe]

/-- The circular buffer after a run of filtered temperature samples that
starts at index 0: slot `m % w` holds the physical value of sample `m` for
each of the last `w` samples, and the last report is the average of the
window. -/
theorem tim2_run_inv (w : Nat) (hw1 : 1 ≤ w) (hw2 : w ≤ 50) (s0 : State)
    (h0 : s0.temp_index = 0) (hs : s0.temp_samples = w) (hf : s0.filtro_temp ≠ 0)
    (hlen : s0.temp_buffer.length = 50) (xs : List Nat) :
    (run s0 (xs.map Event.tim2)).1.temp_index = xs.length % w ∧
    (run s0 (xs.map Event.tim2)).1.temp_samples = w ∧
    (run s0 (xs.map Event.tim2)).1.filtro_temp ≠ 0 ∧
    (run s0 (xs.map Event.tim2)).1.temp_buffer.length = 50 ∧
    (∀ m, m < xs.length → xs.length ≤ m + w →
      (run s0 (xs.map Event.tim2)).1.temp_buffer.getD (m % w) 0
        = gradosDe (xs.getD m 0 % 2 ^ 16)) ∧
    (xs ≠ [] → (run s0 (xs.map Event.tim2)).2.getLast?
        = some (Out.temp (calcularPromedio (run s0 (xs.map Event.tim2)).1.temp_buffer w))) := by
  induction xs using List.reverseRecOn with
  | nil =>
    refine ⟨?_, hs, hf, hlen, ?_, ?_⟩
    · simp [run, h0]
    · intro m hm; simp at hm
    · intro h; exact absurd rfl h
  | append_singleton xs x ih =>
    obtain ⟨i1, i2, i3, i4, i5, _⟩ := ih
    have hrun : run s0 ((xs ++ [x]).map Event.tim2) =
        ((TIM2_IRQHandler x (run s0 (xs.map Event.tim2)).1).1,
         (run s0 (xs.map Event.tim2)).2 ++ (TIM2_IRQHandler x (run s0 (xs.map Event.tim2)).1).2) := by
      rw [List.map_append, run_append]
      simp [run, step]
    rw [hrun, TIM2_filtered x _ i3]
    have hidx : xs.length % w < 50 := lt_of_lt_of_le (Nat.mod_lt _ (by omega)) hw2
    refine ⟨?_, i2, i3, ?_, ?_, ?_⟩
    · simp only [i1, i2, List.length_append, List.length_singleton, Nat.mod_add_mod]
    · simp [i4]
    · intro m hm hle
      simp only [List.length_append, List.length_singleton] at hm hle
      simp only [i1]
      rw [List.getD_eq_getElem?_getD, List.getElem?_set]
      by_cases hml : m = xs.length
      · subst hml
        rw [if_pos rfl, if_pos (by omega)]
        simp [List.getD_eq_getElem?_getD]
      · have hne : xs.length % w ≠ m % w := fun h =>
          mod_ne_of_lt w m xs.length (by omega) (by omega) h.symm
        rw [if_neg hne, ← List.getD_eq_getElem?_getD, i5 m (by omega) (by omega),
          List.getD_append _ _ _ _ (by omega)]
    · intro _
      simp only [i2]
      rw [List.getLast?_concat]

/-- A line of at most 31 bytes and its terminator, from an empty command
buffer: the line is dispatched whole. -/
theorem run_command (L : List Nat) (hL : ∀ d ∈ L, lineByte d) (hne : L ≠ [])
    (hfit : L.length ≤ 31) (t : Nat) (ht : t = '\r'.toNat ∨ t = '\n'.toNat)
    (s : State) (hlen : s.cmd_buffer.length = 32) (hidx : s.cmd_index = 0) :
    ∃ buf : List Nat, buf.length = 32 ∧
      run s (receive (L ++ [t])) =
        ({ (procesar_comando L { s with cmd_buffer := buf, cmd_index := L.length }).1
              with cmd_index := 0 },
         (procesar_comando L { s with cmd_buffer := buf, cmd_index := L.length }).2) := by
  obtain ⟨buf, hb, _, hrun⟩ := run_line L hL hne t ht s hlen hidx
  refine ⟨buf, hb, ?_⟩
  rw [hrun, List.take_of_length_le hfit, Nat.min_eq_left hfit]

theorem decNat_length_le_two (n : Nat) (h : n < 100) : (decNat n).length ≤ 2 := by
  rw [decNat]
  split
  · simp
  · rw [decNat, if_pos (by omega)]
    simp

/-- The state in which the samples of C2 arrive: `ST:w` and `FT:1` received
after boot. -/
theorem after_ST_FT (w : Nat) (hw1 : 1 ≤ w) (hw2 : w ≤ 50)
    (t1 t2 : Nat) (ht1 : t1 = '\r'.toNat ∨ t1 = '\n'.toNat)
    (ht2 : t2 = '\r'.toNat ∨ t2 = '\n'.toNat) :
    (run boot (receive (bytes "ST:" ++ decimal w ++ [t1])
        ++ receive (bytes "FT:1" ++ [t2]))).1.temp_index = 0 ∧
    (run boot (receive (bytes "ST:" ++ decimal w ++ [t1])
        ++ receive (bytes "FT:1" ++ [t2]))).1.temp_samples = w ∧
    (run boot (receive (bytes "ST:" ++ decimal w ++ [t1])
        ++ receive (bytes "FT:1" ++ [t2]))).1.filtro_temp = 1 ∧
    (run boot (receive (bytes "ST:" ++ decimal w ++ [t1])
        ++ receive (bytes "FT:1" ++ [t2]))).1.temp_buffer = List.replicate 50 0 := by
  have hL1 : ∀ d ∈ bytes "ST:" ++ decimal w, lineByte d := by
    intro d hd
    rw [List.mem_append] at hd
    rcases hd with hd | hd
    · revert d; decide
    · exact decimal_lineByte w d hd
  have hdec : decimal (w : Int) = decNat w := by
    simp [decimal]
  have hfit : (bytes "ST:" ++ decimal w).length ≤ 31 := by
    have := decNat_length_le_two w (by omega)
    rw [List.length_append, hdec]
    simp [bytes]
    omega
  obtain ⟨buf1, hb1, hr1⟩ := run_command _ hL1 (by simp [bytes]) hfit t1 ht1 boot
    (by decide) (by decide)
  have hwin : (1 : Int) ≤ w ∧ (w : Int) ≤ 50 := by omega
  have hFT : bytes "FT:1" = bytes "FT:" ++ decimal 1 := by simp [decimal, decNat, bytes]
  rw [run_append, hr1,
    procesar_ST_state w (by simp only [INT_MIN]; omega) (by simp only [INT_MAX]; omega),
    if_pos hwin]
  obtain ⟨buf2, hb2, hr2⟩ := run_command (bytes "FT:1") (by decide) (by decide) (by decide) t2 ht2
    { ({ boot with cmd_buffer := buf1, cmd_index := (bytes "ST:" ++ decimal w).length,
                   temp_samples := (w : Int).toNat } : State) with cmd_index := 0 }
    hb1 rfl
  rw [hr2, hFT, procesar_FT, int_of_long_of_int 1 (by decide) (by decide)]
  simp [boot, MAX_SAMPLES]

/-- C2. From boot, after the lines `ST:w` (`1 ≤ w ≤ 50`) and `FT:1`, any
`w + k` temperature samples make the value reported by the last sampling event
the arithmetic mean of the physical values of the last `w` of them, with
exact arithmetic. -/
theorem C2_moving_average (w k : Nat) (hw1 : 1 ≤ w) (hw2 : w ≤ 50)
    (xs : List Nat) (hxs : xs.length = w + k)
    (t1 t2 : Nat) (ht1 : t1 = '\r'.toNat ∨ t1 = '\n'.toNat)
    (ht2 : t2 = '\r'.toNat ∨ t2 = '\n'.toNat) :
    (run boot (receive (bytes "ST:" ++ decimal w ++ [t1]) ++ receive (bytes "FT:1" ++ [t2])
        ++ xs.map Event.tim2)).2.getLast?
      = some (Out.temp
          (((xs.drop k).map (fun dr => gradosDe (dr % 2 ^ 16))).sum / w)) := by
  obtain ⟨a1, a2, a3, a4⟩ := after_ST_FT w hw1 hw2 t1 t2 ht1 ht2
  have hne : xs ≠ [] := by
    intro h
    rw [h] at hxs
    simp at hxs
    omega
  obtain ⟨_, _, _, _, i5, i6⟩ := tim2_run_inv w hw1 hw2 _ a1 a2 (by rw [a3]; decide)
    (by rw [a4]; simp) xs
  rw [run_append]
  simp only [List.getLast?_append, i6 hne]
  rw [show ∀ (a : Out) (b : Option Out), (some a).or b = some a from fun _ _ => rfl]
  congr 2
  rw [calcularPromedio_eq, ← sum_range_shift _ w k, map_sum_eq_sum_range]
  have hl : (xs.drop k).length = w := by simp [hxs]
  rw [hl]
  congr 1
  apply Finset.sum_congr rfl
  intro i hi
  have hi' := Finset.mem_range.1 hi
  rw [i5 (k + i) (by omega) (by omega)]
  simp only [List.getD_eq_getElem?_getD, List.getElem?_drop]

theorem C2_moving_average_witness :
    (run boot (receive (bytes "ST:" ++ decimal 2 ++ [13]) ++ receive (bytes "FT:1" ++ [10])
        ++ [Event.tim2 100, Event.tim2 200, Event.tim2 300])).2.getLast?
      = some (Out.temp ((gradosDe 200 + gradosDe 300) / 2)) := by
  have h := C2_moving_average 2 1 (by decide) (by decide) [100, 200, 300] rfl 13 10
    (by decide) (by decide)
  simpa using h

/-- An invariant of `step` that holds at boot holds in every reachable state. -/
theorem reachable_induction (P : State → Prop) (h0 : P boot)
    (hstep : ∀ s e, P s → P (step s e).1) (s : State) (hs : Reachable s) : P s := by
  obtain ⟨es, rfl⟩ := hs
  have key : ∀ (es : List Event) (s0 : State), P s0 → P (run s0 es).1 := by
    intro es
    induction es with
    | nil => intro s0 h; exact h
    | cons e es ih => intro s0 h; exact ih _ (hstep s0 e h)
  exact key es boot h0

theorem reachable_step (s : State) (e : Event) (hs : Reachable s) : Reachable (step s e).1 := by
  obtain ⟨es, rfl⟩ := hs
  refine ⟨es ++ [e], ?_⟩
  rw [run_append]
  simp [run]

/-- Fields `procesar_comando` never writes. -/
theorem procesar_comando_frame (cmd : List Nat) (s : State) :
    (procesar_comando cmd s).1.flag = s.flag ∧
    (procesar_comando cmd s).1.cmd_buffer = s.cmd_buffer ∧
    (procesar_comando cmd s).1.cmd_index = s.cmd_index ∧
    (procesar_comando cmd s).1.temp_buffer = s.temp_buffer ∧
    (procesar_comando cmd s).1.peso_buffer = s.peso_buffer ∧
    (procesar_comando cmd s).1.temp_index = s.temp_index ∧
    (procesar_comando cmd s).1.peso_index = s.peso_index := by
  unfold procesar_comando
  dsimp only
  split
  · simp
  · split
    · simp
    · split_ifs <;> simp

theorem take_succ_set (l : List Nat) (n a : Nat) (h : n < l.length) :
    (l.set n a).take (n + 1) = l.take n ++ [a] := by
  rw [List.set_eq_take_append_cons_drop, if_pos h, List.take_append_eq_append_take]
  have hm : min n l.length = n := by omega
  simp [List.take_take, List.length_take, hm]

/-- The command buffer in a reachable state: 32 bytes, index at most 31, and
the stored line made of line bytes only. -/
theorem reachable_cmd (s : State) (hs : Reachable s) :
    s.cmd_buffer.length = 32 ∧ s.cmd_index ≤ 31 ∧
    ∀ b ∈ s.cmd_buffer.take s.cmd_index, lineByte b := by
  refine reachable_induction
    (fun s => s.cmd_buffer.length = 32 ∧ s.cmd_index ≤ 31 ∧
      ∀ b ∈ s.cmd_buffer.take s.cmd_index, lineByte b) ?_ ?_ s hs
  · refine ⟨by decide, by decide, ?_⟩
    intro b hb
    simp [boot] at hb
  · intro s e ⟨h1, h2, h3⟩
    cases e with
    | usart rxne d =>
      simp only [step, USART3_IRQHandler]
      split_ifs with c1 c2 c3 c4 c5 c6
      · exact ⟨h1, h2, h3⟩
      · exact ⟨h1, h2, h3⟩
      · obtain ⟨_, f2, _⟩ := procesar_comando_frame (s.cmd_buffer.set s.cmd_index 0)
          { s with cmd_buffer := s.cmd_buffer.set s.cmd_index 0 }
        refine ⟨?_, Nat.zero_le _, ?_⟩
        · simp only [f2, List.length_set, h1]
        · intro b hb
          simp at hb
      · exact ⟨h1, h2, h3⟩
      · refine ⟨by simp [h1], by simp only; omega, ?_⟩
        intro b hb
        simp only at hb
        rw [take_succ_set _ _ _ (by omega), List.mem_append, List.mem_singleton] at hb
        rcases hb with hb | hb
        · exact h3 b hb
        · subst hb
          exact ⟨c2, c3, fun h => c4 (Or.inl h), fun h => c4 (Or.inr h)⟩
      · exact ⟨h1, h2, h3⟩
      · exact ⟨h1, h2, h3⟩
    | tim2 dr =>
      simp only [step, TIM2_IRQHandler]
      split_ifs <;> exact ⟨h1, h2, h3⟩
    | tim5 dr =>
      simp only [step, TIM5_IRQHandler]
      split_ifs <;> exact ⟨h1, h2, h3⟩
    | exti pc13 =>
      simp only [step, EXTI15_10_IRQHandler]
      split_ifs <;> exact ⟨h1, h2, h3⟩

/-- C11. The byte `a` sets `flag` to 1 and the byte `b` sets it to 0; nothing
else changes (command buffer and index included) and nothing is sent. In a
reachable state the stored line holds neither byte. -/
theorem C11_start_stop (s : State) :
    USART3_IRQHandler true 'a'.toNat s = ({ s with flag := 1 }, []) ∧
    USART3_IRQHandler true 'b'.toNat s = ({ s with flag := 0 }, []) ∧
    (Reachable s → ∀ b ∈ s.cmd_buffer.take s.cmd_index, b ≠ 'a'.toNat ∧ b ≠ 'b'.toNat) := by
  refine ⟨by simp [USART3_IRQHandler], by simp [USART3_IRQHandler], ?_⟩
  intro hs b hb
  obtain ⟨h1, h2, _, _⟩ := (reachable_cmd s hs).2.2 b hb
  exact ⟨h1, h2⟩

theorem C11_start_stop_witness :
    USART3_IRQHandler true 'a'.toNat boot = ({ boot with flag := 1 }, []) ∧
    (run boot (receive (bytes "Ta1b:a5"))).1.cmd_buffer.take
        (run boot (receive (bytes "Ta1b:a5"))).1.cmd_index = bytes "T1:5" ∧
    ∀ b ∈ (run boot (receive (bytes "Ta1b:a5"))).1.cmd_buffer.take
        (run boot (receive (bytes "Ta1b:a5"))).1.cmd_index, b ≠ 'a'.toNat ∧ b ≠ 'b'.toNat :=
  ⟨(C11_start_stop boot).1, by decide,
    (C11_start_stop (run boot (receive (bytes "Ta1b:a5"))).1).2.2 ⟨_, rfl⟩⟩

/-- C12. A line `T:V` whose type `T` is none of the seven codes and whose
value is non-empty changes no state at all and is still acknowledged with
`OK:T:V\r\n`. -/
theorem C12_unknown_type (T V : List Nat) (s : State)
    (hT : T ≠ []) (hT0 : ∀ b ∈ T, b ≠ 0) (hTc : ∀ b ∈ T, b ≠ ':'.toNat)
    (hV : V ≠ []) (hV0 : ∀ b ∈ V, b ≠ 0)
    (hVc : ∀ b ∈ V, b ≠ '\r'.toNat ∧ b ≠ '\n'.toNat)
    (hT1 : T ≠ bytes "T1") (hT2 : T ≠ bytes "T2") (hTU : T ≠ bytes "TU")
    (hFT : T ≠ bytes "FT") (hFP : T ≠ bytes "FP") (hST : T ≠ bytes "ST")
    (hSP : T ≠ bytes "SP") :
    procesar_comando (T ++ ':'.toNat :: V) s =
      (s, [Out.text (bytes "OK:" ++ T ++ bytes ":" ++ V ++ bytes "\r\n")]) := by
  have h0 : cstr (T ++ ':'.toNat :: V) = T ++ ':'.toNat :: V := by
    apply cstr_eq_self
    intro b hb
    simp only [List.mem_append, List.mem_cons] at hb
    rcases hb with hb | hb | hb
    · exact hT0 b hb
    · subst hb; decide
    · exact hV0 b hb
  simp only [procesar_comando, h0, strtok_colon T V hT hTc, strtok_crlf V hV hVc,
    hT1, hT2, hTU, hFT, hFP, hST, hSP, if_false]

theorem C12_unknown_type_witness :
    procesar_comando (bytes "XY:7") boot = (boot, [Out.text (bytes "OK:XY:7\r\n")]) :=
  C12_unknown_type (bytes "XY") (bytes "7") boot (by decide) (by decide) (by decide)
    (by decide) (by decide) (by decide) (by decide) (by decide) (by decide) (by decide)
    (by decide) (by decide) (by decide)

theorem USART3_terminator_empty (t : Nat) (ht : t = '\r'.toNat ∨ t = '\n'.toNat) (s : State)
    (h0 : s.cmd_index = 0) : USART3_IRQHandler true t s = (s, []) := by
  have ha : t ≠ 'a'.toNat := by rcases ht with h | h <;> subst h <;> decide
  have hb : t ≠ 'b'.toNat := by rcases ht with h | h <;> subst h <;> decide
  have ht' : t = '\n'.toNat ∨ t = '\r'.toNat := ht.symm
  simp only [USART3_IRQHandler, if_true, ha, hb, if_false, ht', gt_iff_lt, h0, Nat.lt_irrefl]

theorem USART3_terminator_index (t : Nat) (ht : t = '\r'.toNat ∨ t = '\n'.toNat) (s : State) :
    (USART3_IRQHandler true t s).1.cmd_index = 0 := by
  by_cases h0 : s.cmd_index = 0
  · rw [USART3_terminator_empty t ht s h0]; exact h0
  · rw [USART3_terminator_raw t ht s (by omega)]

/-- C16. A terminator received with an empty command buffer does nothing:
same state, nothing sent. After any terminator the command buffer is empty.
Hence a second terminator right after the first changes nothing, and a line
ended by two terminators has the same effect and output as with one. -/
theorem C16_terminator (t t2 : Nat) (ht : t = '\r'.toNat ∨ t = '\n'.toNat)
    (ht2 : t2 = '\r'.toNat ∨ t2 = '\n'.toNat) (s : State) :
    (s.cmd_index = 0 → USART3_IRQHandler true t s = (s, [])) ∧
    (USART3_IRQHandler true t s).1.cmd_index = 0 ∧
    (∀ L : List Nat, run s (receive (L ++ [t, t2])) = run s (receive (L ++ [t]))) := by
  refine ⟨USART3_terminator_empty t ht s, USART3_terminator_index t ht s, ?_⟩
  intro L
  have e : receive (L ++ [t, t2]) = receive (L ++ [t]) ++ [Event.usart true t2] := by
    simp [receive]
  have e1 : receive (L ++ [t]) = receive L ++ [Event.usart true t] := by simp [receive]
  have hidx : (run s (receive (L ++ [t]))).1.cmd_index = 0 := by
    rw [e1, run_append]
    simp only [run, step]
    exact USART3_terminator_index t ht _
  rw [e, run_append]
  simp only [run, step, USART3_terminator_empty t2 ht2 _ hidx, List.append_nil]

theorem C16_terminator_witness :
    run boot (receive (bytes "T1:5\r\n")) =
      ({ boot with tiempo1 := 5, cmd_buffer := bytes "T1:5" ++ List.replicate 28 0 },
       [Out.text (bytes "OK:T1:5\r\n")]) := by
  have h := (C16_terminator 13 10 (by decide) (by decide) boot).2.2 (bytes "T1:5")
  have e : bytes "T1:5\r\n" = bytes "T1:5" ++ [13, 10] := by decide
  rw [e, h]
  decide

/-- C19. `procesar_comando` never writes the acquisition flag, the filter
buffers, the filter indices or the command buffer index, and it either leaves
the state as it is or changes exactly the one configuration field that the
type token of the line selects. -/
theorem C19_one_field (cmd : List Nat) (s : State) :
    ((procesar_comando cmd s).1.flag = s.flag ∧
     (procesar_comando cmd s).1.temp_buffer = s.temp_buffer ∧
     (procesar_comando cmd s).1.peso_buffer = s.peso_buffer ∧
     (procesar_comando cmd s).1.temp_index = s.temp_index ∧
     (procesar_comando cmd s).1.peso_index = s.peso_index ∧
     (procesar_comando cmd s).1.cmd_index = s.cmd_index) ∧
    ((procesar_comando cmd s).1 = s ∨
     ∃ tipo rest, strtok (cstr cmd) (bytes ":") = some (tipo, rest) ∧
      ((tipo = bytes "T1" ∧ (procesar_comando cmd s).1 =
          { s with tiempo1 := (procesar_comando cmd s).1.tiempo1 }) ∨
       (tipo = bytes "T2" ∧ (procesar_comando cmd s).1 =
          { s with tiempo2 := (procesar_comando cmd s).1.tiempo2 }) ∨
       (tipo = bytes "TU" ∧ (procesar_comando cmd s).1 =
          { s with time_unit := (procesar_comando cmd s).1.time_unit }) ∨
       (tipo = bytes "FT" ∧ (procesar_comando cmd s).1 =
          { s with filtro_temp := (procesar_comando cmd s).1.filtro_temp }) ∨
       (tipo = bytes "FP" ∧ (procesar_comando cmd s).1 =
          { s with filtro_peso := (procesar_comando cmd s).1.filtro_peso }) ∨
       (tipo = bytes "ST" ∧ (procesar_comando cmd s).1 =
          { s with temp_samples := (procesar_comando cmd s).1.temp_samples }) ∨
       (tipo = bytes "SP" ∧ (procesar_comando cmd s).1 =
          { s with peso_samples := (procesar_comando cmd s).1.peso_samples }))) := by
  obtain ⟨f1, _, f3, f4, f5, f6, f7⟩ := procesar_comando_frame cmd s
  refine ⟨⟨f1, f4, f5, f6, f7, f3⟩, ?_⟩
  unfold procesar_comando
  dsimp only
  split
  · left; rfl
  · next tipo rest h1 =>
    split
    · left; rfl
    · next valor r2 h2 =>
      by_cases c1 : tipo = bytes "T1"
      · right
        refine ⟨tipo, rest, h1, Or.inl ⟨c1, ?_⟩⟩
        rw [if_pos c1]
        split_ifs <;> rfl
      by_cases c2 : tipo = bytes "T2"
      · right
        refine ⟨tipo, rest, h1, Or.inr (Or.inl ⟨c2, ?_⟩)⟩
        rw [if_neg c1, if_pos c2]
        split_ifs <;> rfl
      by_cases c3 : tipo = bytes "TU"
      · right
        refine ⟨tipo, rest, h1, Or.inr (Or.inr (Or.inl ⟨c3, ?_⟩))⟩
        rw [if_neg c1, if_neg c2, if_pos c3]
        split_ifs <;> rfl
      by_cases c4 : tipo = bytes "FT"
      · right
        refine ⟨tipo, rest, h1, Or.inr (Or.inr (Or.inr (Or.inl ⟨c4, ?_⟩)))⟩
        rw [if_neg c1, if_neg c2, if_neg c3, if_pos c4]
      by_cases c5 : tipo = bytes "FP"
      · right
        refine ⟨tipo, rest, h1, Or.inr (Or.inr (Or.inr (Or.inr (Or.inl ⟨c5, ?_⟩))))⟩
        rw [if_neg c1, if_neg c2, if_neg c3, if_neg c4, if_pos c5]
      by_cases c6 : tipo = bytes "ST"
      · right
        refine ⟨tipo, rest, h1,
          Or.inr (Or.inr (Or.inr (Or.inr (Or.inr (Or.inl ⟨c6, ?_⟩)))))⟩
        rw [if_neg c1, if_neg c2, if_neg c3, if_neg c4, if_neg c5, if_pos c6]
        split_ifs <;> rfl
      by_cases c7 : tipo = bytes "SP"
      · right
        refine ⟨tipo, rest, h1,
          Or.inr (Or.inr (Or.inr (Or.inr (Or.inr (Or.inr ⟨c7, ?_⟩)))))⟩
        rw [if_neg c1, if_neg c2, if_neg c3, if_neg c4, if_neg c5, if_neg c6, if_pos c7]
        split_ifs <;> rfl
      · left
        rw [if_neg c1, if_neg c2, if_neg c3, if_neg c4, if_neg c5, if_neg c6, if_neg c7]

theorem procesar_comando_time_unit (cmd : List Nat) (s : State) :
    (procesar_comando cmd s).1.time_unit = s.time_unit ∨
    (procesar_comando cmd s).1.time_unit = 'm'.toNat ∨
    (procesar_comando cmd s).1.time_unit = 's'.toNat ∨
    (procesar_comando cmd s).1.time_unit = 'M'.toNat := by
  unfold procesar_comando
  dsimp only
  split
  · left; rfl
  · split
    · left; rfl
    · split_ifs with c1 c2 c3 c4 c5 c6 c7 c8 c9 c10 c11 <;> first | (left; rfl) | (right; exact c6)

/-- Fields the receive handler never writes. -/
theorem USART3_frame (rxne : Bool) (d : Nat) (s : State) :
    (USART3_IRQHandler rxne d s).1.temp_buffer = s.temp_buffer ∧
    (USART3_IRQHandler rxne d s).1.peso_buffer = s.peso_buffer := by
  unfold USART3_IRQHandler
  split_ifs
  · simp
  · simp
  · obtain ⟨_, _, _, f4, f5, _, _⟩ := procesar_comando_frame (s.cmd_buffer.set s.cmd_index 0)
      { s with cmd_buffer := s.cmd_buffer.set s.cmd_index 0 }
    exact ⟨f4, f5⟩
  · simp
  · simp
  · simp
  · simp

theorem reachable_time_unit (s : State) (hs : Reachable s) :
    s.time_unit = 'm'.toNat ∨ s.time_unit = 's'.toNat ∨ s.time_unit = 'M'.toNat := by
  refine reachable_induction
    (fun s => s.time_unit = 'm'.toNat ∨ s.time_unit = 's'.toNat ∨ s.time_unit = 'M'.toNat)
    (by decide) ?_ s hs
  intro s e h
  cases e with
  | usart rxne d =>
    simp only [step, USART3_IRQHandler]
    split_ifs
    · exact h
    · exact h
    · have := procesar_comando_time_unit (s.cmd_buffer.set s.cmd_index 0)
        { s with cmd_buffer := s.cmd_buffer.set s.cmd_index 0 }
      rcases this with h' | h'
      · simp only at h' ⊢
        rw [h']
        exact h
      · exact h'
    · exact h
    · exact h
    · exact h
    · exact h
  | tim2 dr =>
    simp only [step, TIM2_IRQHandler]
    split_ifs <;> exact h
  | tim5 dr =>
    simp only [step, TIM5_IRQHandler]
    split_ifs <;> exact h
  | exti pc13 =>
    simp only [step, EXTI15_10_IRQHandler]
    split_ifs <;> exact h

/-- C13. In every reachable state `time_unit` is `m`, `s` or `M`, so the
factor chosen by the main loop is the one of that unit and never the initial
value kept when no case matches. -/
theorem C13_time_unit_valid (s : State) (hs : Reachable s) :
    (s.time_unit = 'm'.toNat ∨ s.time_unit = 's'.toNat ∨ s.time_unit = 'M'.toNat) ∧
    (∀ p, arr_value p s.time_unit = max 1 (p * 1 % 2 ^ 32) ∧ s.time_unit = 'm'.toNat ∨
          arr_value p s.time_unit = max 1 (p * 1000 % 2 ^ 32) ∧ s.time_unit = 's'.toNat ∨
          arr_value p s.time_unit = max 1 (p * 60000 % 2 ^ 32) ∧ s.time_unit = 'M'.toNat) := by
  have h := reachable_time_unit s hs
  refine ⟨h, fun p => ?_⟩
  rcases h with h | h | h
  · exact Or.inl ⟨by rw [h]; exact (arr_value_eq p _ 1 (by decide)).trans (ite_lt_one _), h⟩
  · exact Or.inr (Or.inl
      ⟨by rw [h]; exact (arr_value_eq p _ 1000 (by decide)).trans (ite_lt_one _), h⟩)
  · exact Or.inr (Or.inr
      ⟨by rw [h]; exact (arr_value_eq p _ 60000 (by decide)).trans (ite_lt_one _), h⟩)

theorem C13_time_unit_valid_witness :
    (run boot (receive (bytes "TU:M\rTU:q\r"))).1.time_unit = 'M'.toNat ∧
    ((run boot (receive (bytes "TU:M\rTU:q\r"))).1.time_unit = 'm'.toNat ∨
     (run boot (receive (bytes "TU:M\rTU:q\r"))).1.time_unit = 's'.toNat ∨
     (run boot (receive (bytes "TU:M\rTU:q\r"))).1.time_unit = 'M'.toNat) :=
  ⟨by decide, (C13_time_unit_valid (run boot (receive (bytes "TU:M\rTU:q\r"))).1 ⟨_, rfl⟩).1⟩

theorem reachable_buffers (s : State) (hs : Reachable s) :
    s.temp_buffer.length = 50 ∧ s.peso_buffer.length = 50 := by
  refine reachable_induction
    (fun s => s.temp_buffer.length = 50 ∧ s.peso_buffer.length = 50) (by decide) ?_ s hs
  intro s e ⟨h1, h2⟩
  cases e with
  | usart rxne d =>
    obtain ⟨f1, f2⟩ := USART3_frame rxne d s
    simp only [step, f1, f2]
    exact ⟨h1, h2⟩
  | tim2 dr =>
    simp only [step, TIM2_IRQHandler]
    split_ifs
    · exact ⟨by simp [h1], h2⟩
    · exact ⟨h1, h2⟩
  | tim5 dr =>
    simp only [step, TIM5_IRQHandler]
    split_ifs
    · exact ⟨h1, by simp [h2]⟩
    · exact ⟨h1, h2⟩
  | exti pc13 =>
    simp only [step, EXTI15_10_IRQHandler]
    split_ifs <;> exact ⟨h1, h2⟩

/-- C18. In every reachable state both windows lie in `[1, 50]` and both
write indices are below 50, the buffers keep their 50 elements, so the write
index and every index below the window are inside the buffer, and the window
used as divisor is not zero. -/
theorem C18_filter_safety (s : State) (hs : Reachable s) :
    (1 ≤ s.temp_samples ∧ s.temp_samples ≤ 50 ∧ 1 ≤ s.peso_samples ∧ s.peso_samples ≤ 50) ∧
    (s.temp_index < 50 ∧ s.peso_index < 50) ∧
    (s.temp_index < s.temp_buffer.length ∧ s.peso_index < s.peso_buffer.length) ∧
    (∀ i, i < s.temp_samples → i < s.temp_buffer.length) ∧
    (∀ i, i < s.peso_samples → i < s.peso_buffer.length) ∧
    (s.temp_samples ≠ 0 ∧ s.peso_samples ≠ 0) := by
  obtain ⟨h1, h2, h3, h4, h5, h6⟩ := reachable_filterBounds s hs
  obtain ⟨b1, b2⟩ := reachable_buffers s hs
  simp only [MAX_SAMPLES] at h1 h2 h4 h6
  refine ⟨⟨h3, h4, h5, h6⟩, ⟨h1, h2⟩, ⟨by omega, by omega⟩, ?_, ?_, by omega, by omega⟩
  · intro i hi; omega
  · intro i hi; omega

theorem C18_filter_safety_witness :
    (run boot (receive (bytes "ST:50\rFT:1\r") ++ [Event.tim2 9])).1.temp_index
      < (run boot (receive (bytes "ST:50\rFT:1\r") ++ [Event.tim2 9])).1.temp_buffer.length ∧
    (run boot (receive (bytes "ST:50\rFT:1\r") ++ [Event.tim2 9])).1.temp_samples = 50 :=
  ⟨(C18_filter_safety (run boot (receive (bytes "ST:50\rFT:1\r") ++ [Event.tim2 9])).1
      ⟨_, rfl⟩).2.2.1.1, by decide⟩

theorem cstr_length_le (p : List Nat) : (cstr p).length ≤ p.length :=
  (List.takeWhile_sublist _).length_le

theorem cstr_set_length (buf : List Nat) (i : Nat) (h : i < buf.length) :
    (cstr (buf.set i 0)).length ≤ i := by
  rw [List.set_eq_take_append_cons_drop, if_pos h, cstr_append_nul_gen]
  have := cstr_length_le (buf.take i)
  simp only [List.length_take] at this
  omega

theorem strtok_lengths (s delims tok rest : List Nat) (h : strtok s delims = some (tok, rest)) :
    tok.length + rest.length ≤ s.length ∧
    (rest ≠ [] → tok.length + rest.length + 1 ≤ s.length) := by
  unfold strtok at h
  have hdw : (s.dropWhile (fun c => delims.contains c)).length ≤ s.length :=
    (List.dropWhile_sublist _).length_le
  split at h
  · exact absurd h (by simp)
  · next c r heq =>
    rw [heq] at hdw
    simp only [Option.some.injEq, Prod.mk.injEq] at h
    obtain ⟨h1, h2⟩ := h
    have hsum := congrArg List.length
      (List.takeWhile_append_dropWhile (fun x => !delims.contains x) (c :: r))
    rw [List.length_append, h1] at hsum
    have hr : rest.length = ((c :: r).dropWhile (fun x => !delims.contains x)).length - 1 := by
      rw [← h2, List.length_drop]
    constructor
    · omega
    · intro hne
      have : 0 < rest.length := List.length_pos.2 hne
      omega

/-- Length of an acknowledgement: at most five bytes more than the line. -/
theorem ack_length (cmd : List Nat) (s : State) (t : List Nat)
    (ht : Out.text t ∈ (procesar_comando cmd s).2) : t.length ≤ (cstr cmd).length + 5 := by
  unfold procesar_comando at ht
  dsimp only at ht
  split at ht
  · simp at ht
  · next tipo rest h1 =>
    split at ht
    · simp at ht
    · next valor r2 h2 =>
      simp only [List.mem_singleton, Out.text.injEq] at ht
      subst ht
      have hne : rest ≠ [] := by
        intro h
        rw [h, strtok_nil] at h2
        exact absurd h2 (by simp)
      have l1 := (strtok_lengths _ _ _ _ h1).2 hne
      have l2 := (strtok_lengths _ _ _ _ h2).1
      simp only [List.length_append, bytes]
      simp
      omega

/-- C20. In every reachable state the command buffer index is at most 31, so
the C string the handler passes to `procesar_comando` has at most 31 bytes and
fits `temp[32]` with its NUL; and every acknowledgement the handler sends has
at most 36 bytes and fits `text[64]` with its NUL. -/
theorem C20_buffers_fit (s : State) (hs : Reachable s) :
    s.cmd_index ≤ 31 ∧ s.cmd_buffer.length = 32 ∧
    (cstr (s.cmd_buffer.set s.cmd_index 0)).length + 1 ≤ 32 ∧
    (∀ rxne d t, Out.text t ∈ (USART3_IRQHandler rxne d s).2 →
      t.length ≤ 36 ∧ t.length + 1 ≤ 64) := by
  obtain ⟨h1, h2, _⟩ := reachable_cmd s hs
  have h3 := cstr_set_length s.cmd_buffer s.cmd_index (by omega)
  refine ⟨h2, h1, by omega, ?_⟩
  intro rxne d t ht
  unfold USART3_IRQHandler at ht
  split_ifs at ht
  · simp at ht
  · simp at ht
  · have := ack_length _ _ t ht
    simp only at this
    omega
  · simp at ht
  · simp at ht
  · simp at ht
  · simp at ht

theorem C20_buffers_fit_witness :
    (run boot (receive (bytes "T1:5xxxxxxxxxxxxxxxxxxxxxxxxxxxZZZ"))).1.cmd_index ≤ 31 ∧
    (run boot (receive (bytes "T1:5xxxxxxxxxxxxxxxxxxxxxxxxxxxZZZ\r"))).2 =
      [Out.text (bytes "OK:T1:5xxxxxxxxxxxxxxxxxxxxxxxxxxx\r\n")] ∧
    (bytes "OK:T1:5xxxxxxxxxxxxxxxxxxxxxxxxxxx\r\n").length = 36 :=
  ⟨(C20_buffers_fit (run boot (receive (bytes "T1:5xxxxxxxxxxxxxxxxxxxxxxxxxxxZZZ"))).1
      ⟨_, rfl⟩).1, by decide, by decide⟩

theorem atoi_le (v : List Nat) : atoi v ≤ 2147483647 := by
  unfold atoi
  split
  · decide
  · split_ifs <;> simp only [int_of_long] <;> omega

/-- What `procesar_comando` can do to the periods: each stays or becomes a
positive `int` value. -/
theorem procesar_comando_tiempo (cmd : List Nat) (s : State) :
    ((procesar_comando cmd s).1.tiempo1 = s.tiempo1 ∨
      (1 ≤ (procesar_comando cmd s).1.tiempo1 ∧
        (procesar_comando cmd s).1.tiempo1 ≤ 2147483647)) ∧
    ((procesar_comando cmd s).1.tiempo2 = s.tiempo2 ∨
      (1 ≤ (procesar_comando cmd s).1.tiempo2 ∧
        (procesar_comando cmd s).1.tiempo2 ≤ 2147483647)) := by
  unfold procesar_comando
  dsimp only
  split
  · simp
  · split
    · simp
    · next valor r2 h2 =>
      have := atoi_le valor
      split_ifs <;> simp <;> omega

theorem USART3_tiempo (rxne : Bool) (d : Nat) (s : State) :
    ((USART3_IRQHandler rxne d s).1.tiempo1 = s.tiempo1 ∨
      (1 ≤ (USART3_IRQHandler rxne d s).1.tiempo1 ∧
        (USART3_IRQHandler rxne d s).1.tiempo1 ≤ 2147483647)) ∧
    ((USART3_IRQHandler rxne d s).1.tiempo2 = s.tiempo2 ∨
      (1 ≤ (USART3_IRQHandler rxne d s).1.tiempo2 ∧
        (USART3_IRQHandler rxne d s).1.tiempo2 ≤ 2147483647)) := by
  unfold USART3_IRQHandler
  split_ifs
  · simp
  · simp
  · exact procesar_comando_tiempo _ _
  · simp
  · simp
  · simp
  · simp

/-- Both periods stay positive along a run as long as the button count leaves
room below `2 ^ 32`. -/
theorem run_tiempo (es : List Event) (s : State) (c : Nat)
    (h1 : 1 ≤ s.tiempo1 ∧ s.tiempo1 ≤ 2147483647 + c)
    (h2 : 1 ≤ s.tiempo2 ∧ s.tiempo2 ≤ 2147483647 + c)
    (hc : c + pulsaciones es ≤ 2147483648) :
    (1 ≤ (run s es).1.tiempo1 ∧ (run s es).1.tiempo1 ≤ 2147483647 + c + pulsaciones es) ∧
    (1 ≤ (run s es).1.tiempo2 ∧ (run s es).1.tiempo2 ≤ 2147483647 + c + pulsaciones es) := by
  induction es generalizing s c with
  | nil => exact ⟨⟨h1.1, by simp [run, pulsaciones]; omega⟩, ⟨h2.1, by simp [run, pulsaciones]; omega⟩⟩
  | cons e es ih =>
    cases e with
    | usart rxne d =>
      simp only [pulsaciones] at hc ⊢
      obtain ⟨u1, u2⟩ := USART3_tiempo rxne d s
      exact ih (step s (Event.usart rxne d)).1 c
        (by simp only [step]; omega) (by simp only [step]; omega) hc
    | tim2 dr =>
      simp only [pulsaciones] at hc ⊢
      refine ih (step s (Event.tim2 dr)).1 c ?_ ?_ hc
      · simp only [step, TIM2_IRQHandler]; split_ifs <;> exact h1
      · simp only [step, TIM2_IRQHandler]; split_ifs <;> exact h2
    | tim5 dr =>
      simp only [pulsaciones] at hc ⊢
      refine ih (step s (Event.tim5 dr)).1 c ?_ ?_ hc
      · simp only [step, TIM5_IRQHandler]; split_ifs <;> exact h1
      · simp only [step, TIM5_IRQHandler]; split_ifs <;> exact h2
    | exti pc13 =>
      cases pc13 with
      | false =>
        simp only [pulsaciones] at hc ⊢
        exact ih (step s (Event.exti false)).1 c h1 h2 hc
      | true =>
        simp only [pulsaciones] at hc ⊢
        have e1 : (s.tiempo1 + 1) % 2 ^ 32 = s.tiempo1 + 1 := Nat.mod_eq_of_lt (by omega)
        have e2 : (s.tiempo2 + 1) % 2 ^ 32 = s.tiempo2 + 1 := Nat.mod_eq_of_lt (by omega)
        have := ih (step s (Event.exti true)).1 (c + 1)
          (by simp only [step, EXTI15_10_IRQHandler, if_true, e1]; omega)
          (by simp only [step, EXTI15_10_IRQHandler, if_true, e2]; omega) (by omega)
        simp only [run]
        omega

theorem run_exti_replicate (n : Nat) (s : State) (h : s.tiempo1 < 2 ^ 32) :
    (run s (List.replicate n (Event.exti true))).1.tiempo1 = (s.tiempo1 + n) % 2 ^ 32 := by
  induction n generalizing s with
  | zero =>
    simp only [List.replicate_zero, run, Nat.add_zero]
    exact (Nat.mod_eq_of_lt h).symm
  | succ n ih =>
    rw [List.replicate_succ]
    simp only [run, step]
    rw [ih _ (by simp only [EXTI15_10_IRQHandler, if_true]; exact Nat.mod_lt _ (by decide))]
    simp only [EXTI15_10_IRQHandler, if_true, Nat.mod_add_mod]
    congr 1
    omega

/-- C14 (as the code has it). A button event clears `flag` and increments both
periods modulo `2 ^ 32`; along every event sequence with at most `2 ^ 31`
button events both periods stay at least 1. -/
theorem C14_periods_positive (es : List Event) (h : pulsaciones es ≤ 2147483648) :
    (1 ≤ (run boot es).1.tiempo1 ∧ 1 ≤ (run boot es).1.tiempo2) ∧
    (∀ s, EXTI15_10_IRQHandler true s =
      ({ s with flag := 0, tiempo1 := (s.tiempo1 + 1) % 2 ^ 32,
                tiempo2 := (s.tiempo2 + 1) % 2 ^ 32 }, [])) := by
  have := run_tiempo es boot 0 (by decide) (by decide) (by omega)
  exact ⟨⟨this.1.1, this.2.1⟩, fun s => rfl⟩

theorem C14_periods_positive_witness :
    1 ≤ (run boot (receive (bytes "T1:0\r") ++ [Event.exti true])).1.tiempo1 ∧
    1 ≤ (run boot (receive (bytes "T1:0\r") ++ [Event.exti true])).1.tiempo2 :=
  (C14_periods_positive (receive (bytes "T1:0\r") ++ [Event.exti true]) (by decide)).1

/-- C14 fails as stated: 4294967295 button events from boot wrap `tiempo1`
from its initial 1 to 0. -/
theorem C14_counterexample :
    (run boot (List.replicate 4294967295 (Event.exti true))).1.tiempo1 = 0 := by
  rw [run_exti_replicate _ _ (by decide)]
  decide

/-- The circular buffer after a run of filtered temperature samples that
starts at any index `i0` below the window, whatever the buffer held: slot
`(i0 + m) % w` holds the physical value of sample `m` for each of the last `w`
samples, and the last report is the average of the window. -/
theorem tim2_run_from (w : Nat) (hw1 : 1 ≤ w) (hw2 : w ≤ 50) (s0 : State)
    (hs : s0.temp_samples = w) (hf : s0.filtro_temp ≠ 0)
    (hlen : s0.temp_buffer.length = 50) (xs : List Nat) :
    (run s0 (xs.map Event.tim2)).1.temp_index % w = (s0.temp_index + xs.length) % w ∧
    (xs ≠ [] → (run s0 (xs.map Event.tim2)).1.temp_index < w) ∧
    (run s0 (xs.map Event.tim2)).1.temp_samples = w ∧
    (run s0 (xs.map Event.tim2)).1.filtro_temp ≠ 0 ∧
    (run s0 (xs.map Event.tim2)).1.temp_buffer.length = 50 ∧
    (s0.temp_index < w → ∀ m, m < xs.length → xs.length ≤ m + w →
      (run s0 (xs.map Event.tim2)).1.temp_buffer.getD ((s0.temp_index + m) % w) 0
        = gradosDe (xs.getD m 0 % 2 ^ 16)) ∧
    (xs ≠ [] → (run s0 (xs.map Event.tim2)).2.getLast?
        = some (Out.temp (calcularPromedio (run s0 (xs.map Event.tim2)).1.temp_buffer w))) := by
  induction xs using List.reverseRecOn with
  | nil =>
    refine ⟨by simp [run], fun h => absurd rfl h, hs, hf, hlen, ?_, fun h => absurd rfl h⟩
    intro _ m hm
    simp at hm
  | append_singleton xs x ih =>
    obtain ⟨i1, i1', i2, i3, i4, i5, _⟩ := ih
    have hrun : run s0 ((xs ++ [x]).map Event.tim2) =
        ((TIM2_IRQHandler x (run s0 (xs.map Event.tim2)).1).1,
         (run s0 (xs.map Event.tim2)).2 ++ (TIM2_IRQHandler x (run s0 (xs.map Event.tim2)).1).2) := by
      rw [List.map_append, run_append]
      simp [run, step]
    rw [hrun, TIM2_filtered x _ i3]
    have hwpos : 0 < w := by omega
    refine ⟨?_, ?_, i2, i3, ?_, ?_, ?_⟩
    · simp only [i2, List.length_append, List.length_singleton, Nat.mod_mod]
      rw [Nat.add_mod, i1, ← Nat.add_mod]
      congr 1
    · intro _
      simp only [i2]
      exact Nat.mod_lt _ hwpos
    · simp [i4]
    · intro hi0 m hm hle
      simp only [List.length_append, List.length_singleton] at hm hle
      have hidx : (run s0 (xs.map Event.tim2)).1.temp_index = (s0.temp_index + xs.length) % w := by
        by_cases hx : xs = []
        · subst hx
          simp only [List.map_nil, run, List.length_nil, Nat.add_zero]
          exact (Nat.mod_eq_of_lt hi0).symm
        · rw [← i1, Nat.mod_eq_of_lt (i1' hx)]
      have hlt50 : (s0.temp_index + xs.length) % w < 50 :=
        lt_of_lt_of_le (Nat.mod_lt _ hwpos) hw2
      simp only [hidx]
      rw [List.getD_eq_getElem?_getD, List.getElem?_set]
      by_cases hml : m = xs.length
      · subst hml
        rw [if_pos rfl, if_pos (by omega)]
        simp [List.getD_eq_getElem?_getD]
      · have hne : (s0.temp_index + xs.length) % w ≠ (s0.temp_index + m) % w := fun h =>
          mod_ne_of_lt w (s0.temp_index + m) (s0.temp_index + xs.length) (by omega) (by omega)
            h.symm
        rw [if_neg hne, ← List.getD_eq_getElem?_getD, i5 hi0 m (by omega) (by omega),
          List.getD_append _ _ _ _ (by omega)]
    · intro _
      simp only [i2]
      rw [List.getLast?_concat]

/-- Once at least `w` filtered samples have been taken from an index below
the window `w`, the report is the mean of the last `w` of them. -/
theorem window_mean (w : Nat) (hw1 : 1 ≤ w) (hw2 : w ≤ 50) (s0 : State)
    (hi : s0.temp_index < w) (hs : s0.temp_samples = w) (hf : s0.filtro_temp ≠ 0)
    (hlen : s0.temp_buffer.length = 50) (xs : List Nat) (hxs : w ≤ xs.length) :
    (run s0 (xs.map Event.tim2)).2.getLast?
      = some (Out.temp
          (((xs.drop (xs.length - w)).map (fun dr => gradosDe (dr % 2 ^ 16))).sum / w)) := by
  have hne : xs ≠ [] := by
    intro h
    rw [h] at hxs
    simp at hxs
    omega
  obtain ⟨_, _, _, _, _, i5, i6⟩ := tim2_run_from w hw1 hw2 s0 hs hf hlen xs
  rw [i6 hne]
  congr 2
  rw [calcularPromedio_eq, ← sum_range_shift _ w (s0.temp_index + (xs.length - w)),
    map_sum_eq_sum_range]
  have hl : (xs.drop (xs.length - w)).length = w := by simp; omega
  rw [hl]
  congr 1
  apply Finset.sum_congr rfl
  intro i hi'
  have hi'' := Finset.mem_range.1 hi'
  rw [Nat.add_assoc, i5 hi (xs.length - w + i) (by omega) (by omega)]
  simp only [List.getD_eq_getElem?_getD, List.getElem?_drop]

/-- C17 (as the code has it). After `ST:w` shrinks the window of a reachable
state with the filter on: if the write index is already below `w`, then once
`w` further samples are taken the report is the mean of the last `w` samples;
in every case this holds once `w + 1` further samples are taken (with the
index at or above `w` the first sample is written outside the window). -/
theorem C17_shrink_window (s : State) (hs : Reachable s) (hf : s.filtro_temp ≠ 0)
    (w : Nat) (hw1 : 1 ≤ w) (hw : w < s.temp_samples) (xs : List Nat) :
    (s.temp_index < w → w ≤ xs.length →
      (run (procesar_comando (bytes "ST:" ++ decimal w) s).1 (xs.map Event.tim2)).2.getLast?
        = some (Out.temp
            (((xs.drop (xs.length - w)).map (fun dr => gradosDe (dr % 2 ^ 16))).sum / w))) ∧
    (w + 1 ≤ xs.length →
      (run (procesar_comando (bytes "ST:" ++ decimal w) s).1 (xs.map Event.tim2)).2.getLast?
        = some (Out.temp
            (((xs.drop (xs.length - w)).map (fun dr => gradosDe (dr % 2 ^ 16))).sum / w))) := by
  obtain ⟨_, _, _, h4, _, _⟩ := reachable_filterBounds s hs
  obtain ⟨hb, _⟩ := reachable_buffers s hs
  simp only [MAX_SAMPLES] at h4
  have hw2 : w ≤ 50 := by omega
  have hwin : (1 : Int) ≤ w ∧ (w : Int) ≤ 50 := by omega
  have hst : (procesar_comando (bytes "ST:" ++ decimal w) s).1 = { s with temp_samples := w } := by
    rw [procesar_ST_state w (by simp only [INT_MIN]; omega) (by simp only [INT_MAX]; omega),
      if_pos hwin]
    simp
  rw [hst]
  have part1 : s.temp_index < w → w ≤ xs.length →
      (run { s with temp_samples := w } (xs.map Event.tim2)).2.getLast?
        = some (Out.temp
            (((xs.drop (xs.length - w)).map (fun dr => gradosDe (dr % 2 ^ 16))).sum / w)) :=
    fun hi hx => window_mean w hw1 hw2 { s with temp_samples := w } hi rfl hf hb xs hx
  refine ⟨part1, ?_⟩
  intro hx
  by_cases hi : s.temp_index < w
  · exact part1 hi (by omega)
  · cases xs with
    | nil => simp at hx
    | cons x xs' =>
      simp only [List.length_cons] at hx
      have hx' : w ≤ xs'.length := by omega
      have hne : xs' ≠ [] := by
        intro h
        rw [h] at hx'
        simp at hx'
        omega
      have hT := TIM2_filtered x ({ s with temp_samples := w } : State) hf
      have hm := window_mean w hw1 hw2 (TIM2_IRQHandler x { s with temp_samples := w }).1
        (by rw [hT]; exact Nat.mod_lt _ (show 0 < w by omega))
        (by rw [hT])
        (by rw [hT]; exact hf)
        (by rw [hT]; simp [hb]) xs' hx'
      have hd : (x :: xs').drop ((x :: xs').length - w) = xs'.drop (xs'.length - w) := by
        have : (x :: xs').length - w = (xs'.length - w) + 1 := by
          simp only [List.length_cons]; omega
        rw [this, List.drop_succ_cons]
      rw [hd, ← hm]
      simp only [List.map_cons, run, step, List.getLast?_append]
      rw [hm]
      rfl

theorem C17_shrink_window_witness :
    (run (procesar_comando (bytes "ST:" ++ decimal 1)
        (run boot (receive (bytes "FT:1\r") ++ [Event.tim2 1000])).1).1
      ([2000, 3000].map Event.tim2)).2.getLast?
      = some (Out.temp
          ((([2000, 3000].drop (2 - 1)).map (fun dr => gradosDe (dr % 2 ^ 16))).sum / (1 : Nat))) :=
  (C17_shrink_window (run boot (receive (bytes "FT:1\r") ++ [Event.tim2 1000])).1 ⟨_, rfl⟩
    (by decide) 1 (by decide) (by decide) [2000, 3000]).2 (by decide)

/-- C17 fails as stated: after `FT:1` and one sample the index is 1 under the
window 10; `ST:1` shrinks the window to 1, and the one further sample (raw code
2000) is written to slot 1, outside the window, so the report is still the
first sample (raw code 1000) and not the most recent one. -/
theorem C17_counterexample :
    Reachable (run boot (receive (bytes "FT:1\r") ++ [Event.tim2 1000])).1 ∧
    (run boot (receive (bytes "FT:1\r") ++ [Event.tim2 1000])).1.filtro_temp = 1 ∧
    (run boot (receive (bytes "FT:1\r") ++ [Event.tim2 1000])).1.temp_samples = 10 ∧
    (run (procesar_comando (bytes "ST:1")
        (run boot (receive (bytes "FT:1\r") ++ [Event.tim2 1000])).1).1
      [Event.tim2 2000]).2 = [Out.temp (gradosDe 1000)] ∧
    gradosDe 1000 ≠ gradosDe 2000 / 1 := by
  refine ⟨⟨_, rfl⟩, by decide, by decide, ?_, ?_⟩
  · have hf : (procesar_comando (bytes "ST:1")
        (run boot (receive (bytes "FT:1\r") ++ [Event.tim2 1000])).1).1.filtro_temp ≠ 0 := by
      decide
    have hi : (procesar_comando (bytes "ST:1")
        (run boot (receive (bytes "FT:1\r") ++ [Event.tim2 1000])).1).1.temp_index = 1 := by
      decide
    have hw : (procesar_comando (bytes "ST:1")
        (run boot (receive (bytes "FT:1\r") ++ [Event.tim2 1000])).1).1.temp_samples = 1 := by
      decide
    have hb : (procesar_comando (bytes "ST:1")
        (run boot (receive (bytes "FT:1\r") ++ [Event.tim2 1000])).1).1.temp_buffer
          = (List.replicate 50 0).set 0 (gradosDe 1000) := rfl
    generalize (procesar_comando (bytes "ST:1")
        (run boot (receive (bytes "FT:1\r") ++ [Event.tim2 1000])).1).1 = s1 at hf hi hw hb ⊢
    simp only [run, step, TIM2_filtered _ _ hf, hi, hw, hb, List.append_nil]
    simp [calcularPromedio, List.range_succ]
  · norm_num [gradosDe]

theorem gradosDe_eq (n : Nat) : gradosDe n = (n : ℚ) * (66671 / 2730000) := by
  unfold gradosDe
  ring

/-- No raw code is nearer to the value `t` than the lower or the upper of the
two codes around it. -/
theorem gradosDe_gap (c : Nat) (t d : ℚ) (h1 : d ≤ t - gradosDe c)
    (h2 : d ≤ gradosDe (c + 1) - t) (n : Nat) : d ≤ |gradosDe n - t| := by
  rw [gradosDe_eq] at h1 h2
  rw [gradosDe_eq]
  rcases Nat.lt_or_ge c n with h | h
  · have hn : ((c + 1 : Nat) : ℚ) ≤ (n : ℚ) := by exact_mod_cast h
    have : d ≤ (n : ℚ) * (66671 / 2730000) - t := by nlinarith
    exact le_trans this (le_abs_self _)
  · have hn : (n : ℚ) ≤ (c : ℚ) := by exact_mod_cast h
    have : d ≤ -((n : ℚ) * (66671 / 2730000) - t) := by nlinarith
    exact le_trans this (neg_le_abs _)

/-- `%.2f` of a non-negative value whose hundredths round down to `N`. -/
theorem formato2f_down (v : ℚ) (N : Nat) (h0 : 0 ≤ v) (h1 : (N : ℚ) ≤ v * 100)
    (h2 : v * 100 < (N : ℚ) + 1 / 2) :
    formato2f v = decNat (N / 100) ++ ['.'.toNat, '0'.toNat + N / 10 % 10, '0'.toNat + N % 10] := by
  have hq : |v| * 100 = v * 100 := by rw [abs_of_nonneg h0]
  have hfl : Int.floor (v * 100) = (N : Int) := by
    rw [Int.floor_eq_iff]
    constructor
    · exact_mod_cast h1
    · push_cast
      linarith
  have hneg : ¬ (v < 0) := not_lt.2 h0
  unfold formato2f
  simp only [hq, hfl, Int.toNat_ofNat, hneg, if_false, List.nil_append]
  have hc : ¬ (v * 100 - (N : ℚ) > 1 / 2 ∨ (v * 100 - (N : ℚ) = 1 / 2 ∧ N % 2 = 1)) := by
    intro h
    rcases h with h | ⟨h, _⟩ <;> linarith
  rw [if_neg hc]

/-- With the filter off every temperature sampling event reports the physical
value of its own raw code. -/
theorem run_tim2_off (xs : List Nat) (s : State) (hf : s.filtro_temp = 0) :
    (run s (xs.map Event.tim2)).2 = xs.map (fun dr => Out.temp (gradosDe (dr % 2 ^ 16))) := by
  induction xs generalizing s with
  | nil => rfl
  | cons x xs ih =>
    have h1 : (TIM2_IRQHandler x s).1.filtro_temp = 0 := by
      simp [TIM2_IRQHandler, hf]
    have h2 : (TIM2_IRQHandler x s).2 = [Out.temp (gradosDe (x % 2 ^ 16))] := by
      simp [TIM2_IRQHandler, hf, gradosDe]
    simp only [List.map_cons, run, step, ih _ h1, h2, List.singleton_append]

/-- C15 (as the code has it). After `a`, `T1:2`, `TU:s` and `ST:5` from boot
the filter is still off, so each of five temperature sampling events reports
the physical value of its own raw code. With `FT:1` sent as well, the period
is 2 s (reload 2000) and the fifth of any five sampling events reports the
mean of their five physical values. No raw code has the physical value 10, 20,
30, 40 or 50; the codes 409, 819, 1228, 1638, 2047 are the nearest, and for
them the `TEMP` line of the mean reads `29.99`. -/
theorem C15_scenario (xs : List Nat) (hxs : xs.length = 5) :
    (run boot (receive (bytes "aT1:2\nTU:s\nST:5\n") ++ xs.map Event.tim2)).2
      = [Out.text (bytes "OK:T1:2\r\n"), Out.text (bytes "OK:TU:s\r\n"),
         Out.text (bytes "OK:ST:5\r\n")]
        ++ xs.map (fun dr => Out.temp (gradosDe (dr % 2 ^ 16))) ∧
    (run boot (receive (bytes "aT1:2\nTU:s\nST:5\nFT:1\n"))).1.flag = 1 ∧
    arr_value (run boot (receive (bytes "aT1:2\nTU:s\nST:5\nFT:1\n"))).1.tiempo1
      (run boot (receive (bytes "aT1:2\nTU:s\nST:5\nFT:1\n"))).1.time_unit = 2000 ∧
    (run boot (receive (bytes "aT1:2\nTU:s\nST:5\nFT:1\n") ++ xs.map Event.tim2)).2.getLast?
      = some (Out.temp ((xs.map (fun dr => gradosDe (dr % 2 ^ 16))).sum / 5)) ∧
    (∀ n : Nat, gradosDe n ≠ 10 ∧ gradosDe n ≠ 20 ∧ gradosDe n ≠ 30 ∧ gradosDe n ≠ 40 ∧
      gradosDe n ≠ 50) ∧
    (∀ n : Nat, |gradosDe 409 - 10| ≤ |gradosDe n - 10| ∧
      |gradosDe 819 - 20| ≤ |gradosDe n - 20| ∧
      |gradosDe 1228 - 30| ≤ |gradosDe n - 30| ∧
      |gradosDe 1638 - 40| ≤ |gradosDe n - 40| ∧
      |gradosDe 2047 - 50| ≤ |gradosDe n - 50|) ∧
    lineaTemp (([409, 819, 1228, 1638, 2047].map (fun dr => gradosDe (dr % 2 ^ 16))).sum / 5)
      = bytes "TEMP:29.99\r\n" := by
  have hi : (run boot (receive (bytes "aT1:2\nTU:s\nST:5\nFT:1\n"))).1.temp_index = 0 := by
    decide
  have hw : (run boot (receive (bytes "aT1:2\nTU:s\nST:5\nFT:1\n"))).1.temp_samples = 5 := by
    decide
  have hf : (run boot (receive (bytes "aT1:2\nTU:s\nST:5\nFT:1\n"))).1.filtro_temp = 1 := by
    decide
  have hb : (run boot (receive (bytes "aT1:2\nTU:s\nST:5\nFT:1\n"))).1.temp_buffer
      = List.replicate 50 0 := rfl
  have g10 : ∀ n : Nat, |gradosDe 409 - 10| ≤ |gradosDe n - 10| := by
    have e : |gradosDe 409 - 10| = 10 - gradosDe 409 := by
      rw [abs_of_nonpos (by norm_num [gradosDe])]; ring
    rw [e]
    exact gradosDe_gap 409 10 _ le_rfl (by norm_num [gradosDe])
  have g20 : ∀ n : Nat, |gradosDe 819 - 20| ≤ |gradosDe n - 20| := by
    have e : |gradosDe 819 - 20| = gradosDe 819 - 20 := by
      rw [abs_of_nonneg (by norm_num [gradosDe])]
    rw [e]
    exact gradosDe_gap 818 20 _ (by norm_num [gradosDe]) le_rfl
  have g30 : ∀ n : Nat, |gradosDe 1228 - 30| ≤ |gradosDe n - 30| := by
    have e : |gradosDe 1228 - 30| = 30 - gradosDe 1228 := by
      rw [abs_of_nonpos (by norm_num [gradosDe])]; ring
    rw [e]
    exact gradosDe_gap 1228 30 _ le_rfl (by norm_num [gradosDe])
  have g40 : ∀ n : Nat, |gradosDe 1638 - 40| ≤ |gradosDe n - 40| := by
    have e : |gradosDe 1638 - 40| = gradosDe 1638 - 40 := by
      rw [abs_of_nonneg (by norm_num [gradosDe])]
    rw [e]
    exact gradosDe_gap 1637 40 _ (by norm_num [gradosDe]) le_rfl
  have g50 : ∀ n : Nat, |gradosDe 2047 - 50| ≤ |gradosDe n - 50| := by
    have e : |gradosDe 2047 - 50| = 50 - gradosDe 2047 := by
      rw [abs_of_nonpos (by norm_num [gradosDe])]; ring
    rw [e]
    exact gradosDe_gap 2047 50 _ le_rfl (by norm_num [gradosDe])
  have hne : ∀ (c : Nat) (t : ℚ), gradosDe c ≠ t →
      (∀ n : Nat, |gradosDe c - t| ≤ |gradosDe n - t|) → ∀ n : Nat, gradosDe n ≠ t := by
    intro c t hc hall n hn
    have h1 := hall n
    rw [hn, sub_self, abs_zero] at h1
    exact hc (sub_eq_zero.1 (abs_eq_zero.1 (le_antisymm h1 (abs_nonneg _))))
  refine ⟨?_, by decide, by decide, ?_, ?_, fun n => ⟨g10 n, g20 n, g30 n, g40 n, g50 n⟩, ?_⟩
  · rw [run_append, run_tim2_off xs _ (by decide)]
    congr 1
  · have hm := window_mean 5 (by decide) (by decide)
      (run boot (receive (bytes "aT1:2\nTU:s\nST:5\nFT:1\n"))).1 (by rw [hi]; decide) hw
      (by rw [hf]; decide) (by rw [hb]; rfl) xs (by omega)
    rw [hxs] at hm
    simp only [Nat.sub_self, List.drop_zero, Nat.cast_ofNat] at hm
    rw [run_append, List.getLast?_append, hm]
    rfl
  · intro n
    exact ⟨hne 409 10 (by norm_num [gradosDe]) g10 n, hne 819 20 (by norm_num [gradosDe]) g20 n,
      hne 1228 30 (by norm_num [gradosDe]) g30 n, hne 1638 40 (by norm_num [gradosDe]) g40 n,
      hne 2047 50 (by norm_num [gradosDe]) g50 n⟩
  · rw [lineaTemp, formato2f_down _ 2999 (by norm_num [gradosDe]) (by norm_num [gradosDe])
      (by norm_num [gradosDe])]
    simp [decNat, bytes]

theorem C15_scenario_witness :
    (run boot (receive (bytes "aT1:2\nTU:s\nST:5\nFT:1\n")
        ++ [409, 819, 1228, 1638, 2047].map Event.tim2)).2.getLast?
      = some (Out.temp (([409, 819, 1228, 1638, 2047].map
          (fun dr => gradosDe (dr % 2 ^ 16))).sum / 5)) :=
  (C15_scenario [409, 819, 1228, 1638, 2047] rfl).2.2.2.1

/-- C15 fails as stated: `a`, `T1:2`, `TU:s` and `ST:5` leave the filter off
as it is at boot. For the raw codes 409, 819, 1228, 1638, 2047, whose physical
values are within 0.012 of 10, 20, 30, 40, 50, the fifth report is the fifth
value alone, its `TEMP` line reads `49.99`, and it is not the mean of the
five. -/
theorem C15_counterexample :
    (run boot (receive (bytes "aT1:2\nTU:s\nST:5\n"))).1.filtro_temp = 0 ∧
    (run boot (receive (bytes "aT1:2\nTU:s\nST:5\n")
        ++ [409, 819, 1228, 1638, 2047].map Event.tim2)).2
      = [Out.text (bytes "OK:T1:2\r\n"), Out.text (bytes "OK:TU:s\r\n"),
         Out.text (bytes "OK:ST:5\r\n"),
         Out.temp (gradosDe 409), Out.temp (gradosDe 819), Out.temp (gradosDe 1228),
         Out.temp (gradosDe 1638), Out.temp (gradosDe 2047)] ∧
    lineaTemp (gradosDe 2047) = bytes "TEMP:49.99\r\n" ∧
    gradosDe 2047 ≠ (gradosDe 409 + gradosDe 819 + gradosDe 1228 + gradosDe 1638
      + gradosDe 2047) / 5 ∧
    (|gradosDe 409 - 10| < 3 / 250 ∧ |gradosDe 819 - 20| < 3 / 250 ∧
     |gradosDe 1228 - 30| < 3 / 250 ∧ |gradosDe 1638 - 40| < 3 / 250 ∧
     |gradosDe 2047 - 50| < 3 / 250) := by
  refine ⟨by decide, ?_, ?_, by norm_num [gradosDe], ?_⟩
  · rw [run_append, run_tim2_off _ _ (by decide)]
    congr 1
  · rw [lineaTemp, formato2f_down _ 4999 (by norm_num [gradosDe]) (by norm_num [gradosDe])
      (by norm_num [gradosDe])]
    simp [decNat, bytes]
  · refine ⟨?_, ?_, ?_, ?_, ?_⟩ <;> rw [abs_lt] <;> norm_num [gradosDe]

end Sensores
